import Mathlib

/-!
Verification development for `src/scraping/mtecresults_scraper.py` of the
`mtecresults-analysis` repository.

The Python module is shallowly embedded below.  Pure helpers become Lean
functions; the stateful scraping loop becomes explicit state passing over a
`LoopState`, with an instrumented event trace recording, in program order,
the in-memory batch appends (line 184), the durable CSV appends (lines 191
and 212) and the checkpoint/session writes (lines 199-200 and 214-215).
Fallible Python code (uncaught exceptions) is modelled with `Except PyErr`.
-/

namespace Mtec

/-- Python exception classes that the scraper can actually raise. -/
inductive PyErr where
  | stopIteration
  | indexError
  | attributeError
  | typeError
  | keyError (msg : String)
  | nameError (name : String)
  | exception (msg : String)
deriving DecidableEq, Repr

/-! ## Python `int()` parsing (used by `convert_split_info`, line 277)

`int(s)` strips surrounding whitespace, accepts an optional sign and a
digit string in which single underscores may separate digits. -/

/-- Python `s.split(sep)` for a one-character separator, as structural
recursion over the character list (no collapsing of empty parts;
`"".split(c) == ['']`). -/
def pySplitCharAux (c : Char) : List Char → List Char → List String
  | [], acc => [acc.reverse.asString]
  | x :: xs, acc =>
    if x = c then acc.reverse.asString :: pySplitCharAux c xs []
    else pySplitCharAux c xs (x :: acc)

/-- Python `s.split(c)` for a single-character separator. -/
def pySplitChar (s : String) (c : Char) : List String :=
  pySplitCharAux c s.toList []

/-- Python `s.strip()`: drop whitespace from both ends. -/
def pyStrip (s : String) : String :=
  ((s.toList.dropWhile Char.isWhitespace).reverse.dropWhile Char.isWhitespace).reverse.asString

/-- Digit-and-underscore tail of Python integer literal parsing: the input
starts after a leading digit has been consumed into `acc`.  A single `_`
must be followed by a digit. -/
def pyDigitsAux : List Char → Nat → Option Nat
  | [], acc => some acc
  | '_' :: rest, acc =>
    match rest with
    | [] => none
    | d :: rest2 =>
      if d.isDigit then pyDigitsAux rest2 (acc * 10 + (d.toNat - 48)) else none
  | c :: rest, acc =>
    if c.isDigit then pyDigitsAux rest (acc * 10 + (c.toNat - 48)) else none

/-- Model of Python `int(s)` for `str` input: `some n` on success, `none`
when `int` raises `ValueError`. -/
def pyInt (s : String) : Option Int :=
  let t := pyStrip s
  match t.toList with
  | '+' :: c :: cs =>
    if c.isDigit then (pyDigitsAux cs (c.toNat - 48)).map (fun n => (n : Int)) else none
  | '-' :: c :: cs =>
    if c.isDigit then (pyDigitsAux cs (c.toNat - 48)).map (fun n => -(n : Int)) else none
  | c :: cs =>
    if c.isDigit then (pyDigitsAux cs (c.toNat - 48)).map (fun n => (n : Int)) else none
  | [] => none

/-! ## `datetime.strptime` for the `%H:%M:%S` and `%M:%S` formats
(lines 281 and 286)

CPython compiles `%H` to the regex `2[0-3]|[0-1]\d|\d`, `%M` to
`[0-5]\d|\d` and `%S` to `6[0-1]|[0-5]\d|\d`, anchors the whole pattern and
rejects unconverted trailing data.  Because `:` never matches a digit, a
data string matches iff splitting it on `:` yields exactly the format's
segments, each being one digit, or two digits whose value is within the
field's bound.  Although the `%S` regex admits the leap seconds 60-61,
`strptime` then calls the `datetime` constructor, which raises
`ValueError: second must be in 0..59` for them; that `ValueError` is the
same exception class the regex mismatch raises, so the effective seconds
bound of `datetime.strptime` is 59. -/

/-- One `strptime` numeric segment with inclusive upper bound `hi`. -/
def strptimeSeg (s : String) (hi : Nat) : Option Nat :=
  match s.toList with
  | [c] => if c.isDigit then some (c.toNat - 48) else none
  | [c, d] =>
    if c.isDigit ∧ d.isDigit then
      let v := (c.toNat - 48) * 10 + (d.toNat - 48)
      if v ≤ hi then some v else none
    else none
  | _ => none

/-- `datetime.strptime(s, '%H:%M:%S')` followed by `.time()` and the
conversion `3600*h + 60*m + s` of line 282; `none` models `ValueError`. -/
def strptimeHMS (s : String) : Option Nat :=
  match pySplitChar s ':' with
  | [h, m, sec] =>
    match strptimeSeg h 23, strptimeSeg m 59, strptimeSeg sec 59 with
    | some hv, some mv, some sv => some (3600 * hv + 60 * mv + sv)
    | _, _, _ => none
  | _ => none

/-- `datetime.strptime(s, '%M:%S')` followed by `60*m + s` of line 287. -/
def strptimeMS (s : String) : Option Nat :=
  match pySplitChar s ':' with
  | [m, sec] =>
    match strptimeSeg m 59, strptimeSeg sec 59 with
    | some mv, some sv => some (60 * mv + sv)
    | _, _ => none
  | _ => none

/-- `convert_split_info` (lines 270-289) on an already-string-or-missing
cell: `none` is `NaN`.  Branch 1 (bare `except`) tries
`int(split_info.split('/')[0])`; branch 2 tries `%H:%M:%S`; branch 3 tries
`%M:%S`; otherwise the value is missing. -/
def convert_split_info (split_info : Option String) : Option Int :=
  match split_info with
  | none => none
  | some s =>
    match pyInt ((pySplitChar s '/').headD "") with
    | some n => some n
    | none =>
      match strptimeHMS s with
      | some t => some (t : Int)
      | none =>
        match strptimeMS s with
        | some t => some (t : Int)
        | none => none

/-- The residence lambda of line 268:
`x.split(',')[-1].strip() if ',' in x else ''`. -/
def residenceOf (x : String) : String :=
  if x.toList.contains ',' then pyStrip ((pySplitChar x ',').getLastD "") else ""

/-! ## Python `dict` as an insertion-ordered association list -/

/-- `d[k] = v`: overwrite in place if the key exists, else append. -/
def pyDictInsert (d : List (String × String)) (k v : String) : List (String × String) :=
  if d.any (fun p => p.1 = k) then d.map (fun p => if p.1 = k then (k, v) else p)
  else d ++ [(k, v)]

/-- `d.update(u)`. -/
def pyDictUpdate (d : List (String × String)) (u : List (String × String)) :
    List (String × String) :=
  u.foldl (fun acc p => pyDictInsert acc p.1 p.2) d

/-- Key lookup in a Python dict model. -/
def lookupStr (d : List (String × String)) (k : String) : Option String :=
  (d.find? (fun p => p.1 = k)).map Prod.snd

/-! ## HTML documents and the BeautifulSoup operations the extractors use

A node carries its tag, its `class` attribute as a token list, its
`get_text(strip=True)` value (modelled as a stored field: text extraction
is library behaviour, not repository code), and its children. -/

inductive Html where
  | node (tag : String) (classes : List String) (txt : String) (children : List Html)
deriving Inhabited

def Html.tag : Html → String
  | .node t _ _ _ => t

def Html.cls : Html → List String
  | .node _ c _ _ => c

def Html.txt : Html → String
  | .node _ _ x _ => x

def Html.children : Html → List Html
  | .node _ _ _ ch => ch

mutual

/-- The node and all its descendants in document (preorder) order. -/
def Html.allNodes : Html → List Html
  | .node t c x ch => .node t c x ch :: Html.allNodesList ch

def Html.allNodesList : List Html → List Html
  | [] => []
  | h :: hs => Html.allNodes h ++ Html.allNodesList hs

end

/-- BeautifulSoup `class_` matching: a single token matches the class list,
and a multi-token query string matches the whole attribute value. -/
def matchesClass (n : Html) (cls : String) : Bool :=
  n.cls.contains cls || n.cls == pySplitChar cls ' '

/-- `soup.find_all(tag)` in document order. -/
def Html.findAllTag (h : Html) (tag : String) : List Html :=
  h.allNodes.filter (fun n => n.tag == tag)

/-- `soup.find(tag)`, `None` as `none`. -/
def Html.findTag (h : Html) (tag : String) : Option Html :=
  (h.findAllTag tag).head?

/-- `soup.find_all(tag, class_=cls)`. -/
def Html.findAllTagClass (h : Html) (tag cls : String) : List Html :=
  h.allNodes.filter (fun n => n.tag == tag && matchesClass n cls)

/-- `soup.find(tag, class_=cls)`. -/
def Html.findTagClass (h : Html) (tag cls : String) : Option Html :=
  (h.findAllTagClass tag cls).head?

/-! ## Configuration (`config/params.yaml`), treated as an immutable,
already-validated structure as the spec's external-interface section says. -/

structure ConfigParams where
  /-- `column_mapping`: caption → dataframe field name. -/
  column_mapping : List (String × String) := []
  /-- `splits.start`: start-label caption → field name. -/
  start_map : List (String × String) := []
  /-- `splits.distance`: ordered distance-mark captions. -/
  distance : List String := []
  /-- `personal`: personal schema columns. -/
  personal : List String := []
  /-- `scraping.batch_size`. -/
  batch_size : Int := 1
  /-- `scraping.runner_ids_pool`: closed intervals `[L, R]`. -/
  runner_ids_pool : List (Int × Int) := []
  /-- `scraping.runner_id`: name of the identifier column. -/
  runner_id : String := "runner_id"
  /-- `cleaning.personal`: required personal columns. -/
  cleaning_personal : List String := []
  /-- `cleaning.split_info`: kept split metrics. -/
  split_info : List String := []
  /-- `cleaning.filter_by`, flattened to key/value pairs. -/
  filter_by : List (String × String) := []
deriving Repr

/-- Warnings and progress lines printed by the scraper. -/
inductive LogMsg where
  | warnNoSplits (rid : Int)
  | warnUnknownField (col : String) (rid : Int)
  | warnUnknownLabel (lbl : String) (rid : Int)
  | warnNoPersonal (rid : Int)
  | warnBadPersonalFormat (rid : Int)
  | skipError (rid : Int)
  | progress (rid : Int) (saved : Nat)
deriving DecidableEq, Repr

/-- Field name `f'split_{k}_' + metric` (lines 43 and 260). -/
def splitFieldName (k : Nat) (metric : String) : String :=
  "split_" ++ toString k ++ "_" ++ metric

/-- The inner column loop of lines 41-45: one `(header, value)` cell of a
distance-mark row, at split index `k`. -/
def splitsCellStep (config_params : ConfigParams) (runner_id : Int) (k : Nat)
    (pr : Except PyErr (List (String × String)) × List LogMsg) (cv : String × String) :
    Except PyErr (List (String × String)) × List LogMsg :=
  match pr with
  | (.error e, lg2) => (.error e, lg2)
  | (.ok res2, lg2) =>
    match lookupStr config_params.column_mapping cv.1 with
    | some mapped => (.ok (pyDictInsert res2 (splitFieldName k mapped) cv.2), lg2)
    | none => (.ok res2, lg2 ++ [.warnUnknownField cv.1 runner_id])

/-- One body row of the splits table (the loop body of lines 38-50).
`res` is the accumulated dict; the row's label cell is `row.find('th')`
(raising `AttributeError` on a row with no `th`), the header list is the
first row's headers with the leading column dropped. -/
def splitsRowStep (config_params : ConfigParams) (runner_id : Int)
    (headers : List String)
    (acc : Except PyErr (List (String × String)) × List LogMsg) (row : Html) :
    Except PyErr (List (String × String)) × List LogMsg :=
  match acc with
  | (.error e, lg) => (.error e, lg)
  | (.ok res, lg) =>
    match row.findTag "th" with
    | none => (.error .attributeError, lg)
    | some th =>
      let split_name := th.txt
      if split_name ∈ config_params.distance then
        let k := config_params.distance.indexOf split_name + 1
        let cells := headers.zip ((row.findAllTag "td").map Html.txt)
        cells.foldl (splitsCellStep config_params runner_id k) (.ok res, lg)
      else
        match lookupStr config_params.start_map split_name with
        | some fname =>
          match row.findTag "td" with
          | none => (.error .attributeError, lg)
          | some td => (.ok (pyDictInsert res fname td.txt), lg)
        | none => (.ok res, lg ++ [.warnUnknownLabel split_name runner_id])

/-- `extract_splits` (lines 12-52).  The first returned component is the
dict of extracted fields, or the uncaught exception the Python code raises
(`StopIteration` from `next(rows)` on a row-less table, `IndexError` from
`headers.pop(0)` on a `th`-less first row, `AttributeError` from
`row.find('th').get_text` / `row.find('td').get_text` on `None`); the
second is the printed warnings. -/
def extract_splits (html_data : Html) (runner_id : Int) (config_params : ConfigParams) :
    Except PyErr (List (String × String)) × List LogMsg :=
  match html_data.findTagClass "div" "detailedresultsseg" with
  | none => (.ok [], [.warnNoSplits runner_id])
  | some splits_table =>
    match splits_table.findAllTag "tr" with
    | [] => (.error .stopIteration, [])
    | headerRow :: rows =>
      match (headerRow.findAllTag "th").map Html.txt with
      | [] => (.error .indexError, [])
      | _ :: headers =>
        rows.foldl (splitsRowStep config_params runner_id headers) (.ok [], [])

/-- `extract_personal` (lines 54-77).  Total: the only anomaly paths return
an empty dict with a warning (the five-way unpacking of line 72 raises
`ValueError` inside the `try`, caught at line 73). -/
def extract_personal (html_data : Html) (runner_id : Int) :
    List (String × String) × List LogMsg :=
  match html_data.findTagClass "div" "me-auto mb-3 mb-md-0" with
  | none => ([], [.warnNoPersonal runner_id])
  | some personal =>
    match (personal.findAllTagClass "strong" "text-primary").map Html.txt with
    | [ev, _, sx, ag, res] =>
      ([("event", ev), ("sex", sx), ("age", ag), ("residence", res)], [])
    | _ => ([], [.warnBadPersonalFormat runner_id])

/-! ## Identifier pool enumeration (lines 147-155, 173) -/

/-- Python `range(a, b)` as an ascending `Int` list. -/
def intRange (a b : Int) : List Int :=
  (List.range (b - a).toNat).map (fun i : Nat => a + (i : Int))

/-- Lines 148-154: the clipped ranges kept for this session, in pool
order.  A range is kept when `runner_id_init <= right`, clipped to start
at `max(runner_id_init, left)`. -/
def runner_id_ranges (pool : List (Int × Int)) (runner_id_init : Int) : List (List Int) :=
  pool.filterMap (fun lr =>
    if runner_id_init ≤ lr.2 then some (intRange (max runner_id_init lr.1) (lr.2 + 1))
    else none)

/-- Line 154: `total += right - max(new_left, left) + 1` over the kept
ranges, computed before any identifier is emitted. -/
def scrapeTotal (pool : List (Int × Int)) (runner_id_init : Int) : Int :=
  match pool with
  | [] => 0
  | lr :: rest =>
    (if runner_id_init ≤ lr.2 then
      lr.2 - max (max runner_id_init lr.1) lr.1 + 1
     else 0) + scrapeTotal rest runner_id_init

/-- Line 173: `itertools.chain.from_iterable(runner_id_ranges)`. -/
def enumIds (pool : List (Int × Int)) (runner_id_init : Int) : List Int :=
  (runner_id_ranges pool runner_id_init).flatten

/-! ## The checkpointed ingestion loop (lines 170-219) -/

/-- One in-memory record: the subject identifier (`entry['runner_id']`,
line 181) and the remaining extracted fields. -/
structure Entry where
  rid : Int
  fields : List (String × String)
deriving DecidableEq, Repr

/-- Instrumented trace of the loop's persistence-relevant actions, in
program order: `record` is the in-memory `entries_batch.append` of line
184; `append` is the durable `df_batch.to_csv(..., mode='a')` of lines 191
and 212; `writeCheckpoint` is the session-file write of lines 199-200 and
214-215. -/
inductive Event where
  | record (e : Entry)
  | append (b : List Entry)
  | writeCheckpoint (rid : Int)
deriving DecidableEq, Repr

/-- Outcome of one `session.get` (lines 176-177): `content` is status 200
with a parsed document; `noContent` is any other returned status (redirects
are not followed); `transportError` is a raised
`requests.exceptions.RequestException` (timeout, connection error, DNS
failure, retry exhaustion). -/
inductive FetchOutcome where
  | content (doc : Html)
  | noContent (code : Nat)
  | transportError

/-- Mutable state of the main scraping loop. -/
structure LoopState where
  batch : List Entry
  saved : Nat
  events : List Event
  log : List LogMsg
  /-- The current value of the loop variable `runner_id`, used by the
  residual flush of lines 209-215. -/
  last : Option Int
deriving Repr

def initLoopState : LoopState := ⟨[], 0, [], [], none⟩

/-- The flush body (lines 188-200): durable append, `saved` update, batch
clear, optional progress line, then the checkpoint write. -/
def doFlush (st : LoopState) (rid : Int) (progressLine : Bool) : LoopState :=
  let st1 := { st with events := st.events ++ [Event.append st.batch],
                       saved := st.saved + st.batch.length,
                       batch := [] }
  let st2 := if progressLine then { st1 with log := st1.log ++ [LogMsg.progress rid st1.saved] }
             else st1
  { st2 with events := st2.events ++ [Event.writeCheckpoint rid] }

/-- Line 187: flush when the batch is full or
`runner_id % (BATCH_SIZE * 2) == 0`. -/
def maybeFlush (cfg : ConfigParams) (st : LoopState) (rid : Int) : LoopState :=
  if cfg.batch_size ≤ (st.batch.length : Int) ∨ rid % (cfg.batch_size * 2) = 0 then
    doFlush st rid (rid % (cfg.batch_size * 2) = 0)
  else st

/-- One iteration of the loop body (lines 174-206).  A transport failure is
caught at line 202 and only logged; an uncaught extraction exception (see
`extract_splits`) aborts the function, since the `except` clause only
handles `RequestException`. -/
def loopStep (cfg : ConfigParams) (st : LoopState) (rid : Int) (oc : FetchOutcome) :
    LoopState × Option PyErr :=
  let st := { st with last := some rid }
  match oc with
  | .transportError => ({ st with log := st.log ++ [LogMsg.skipError rid] }, none)
  | .noContent _ => (maybeFlush cfg st rid, none)
  | .content doc =>
    let pr := extract_personal doc rid
    match extract_splits doc rid cfg with
    | (.error e, slog) => ({ st with log := st.log ++ pr.2 ++ slog }, some e)
    | (.ok sfields, slog) =>
      let entry : Entry := ⟨rid, pyDictUpdate (pyDictUpdate [] pr.1) sfields⟩
      let st := { st with log := st.log ++ pr.2 ++ slog,
                          batch := st.batch ++ [entry],
                          events := st.events ++ [Event.record entry] }
      (maybeFlush cfg st rid, none)

/-- The main loop over the enumerated identifiers with their fetch
outcomes; stops at the first uncaught exception, returning the state
reached so far. -/
def runLoop (cfg : ConfigParams) : List (Int × FetchOutcome) → LoopState →
    LoopState × Option PyErr
  | [], st => (st, none)
  | (rid, oc) :: rest, st =>
    match loopStep cfg st rid oc with
    | (st2, none) => runLoop cfg rest st2
    | (st2, some e) => (st2, some e)

/-- The residual flush of lines 208-215: append the final batch, then
write the checkpoint as the last loop variable value. -/
def residualFlush (st : LoopState) : LoopState × Option PyErr :=
  if st.batch = [] then (st, none)
  else
    match st.last with
    | some rid =>
      ({ st with events := st.events ++ [Event.append st.batch] ++ [Event.writeCheckpoint rid],
                 saved := st.saved + st.batch.length,
                 batch := [] }, none)
    | none => (st, some (.nameError "runner_id"))

/-- `scrape_race_data` from the start of the main loop (line 173) to the
end of the function.  Line 217 interpolates the name `processed`, which is
bound nowhere in the function, so every path that completes the loop and
the residual flush raises `NameError` instead of printing the summary and
returning the dataframe. -/
def scrapeRun (cfg : ConfigParams) (inputs : List (Int × FetchOutcome)) :
    LoopState × Option PyErr :=
  let r1 := runLoop cfg inputs initLoopState
  if r1.2.isSome then r1
  else
    let r2 := residualFlush r1.1
    if r2.2.isSome then r2 else (r2.1, some (.nameError "processed"))

/-- A whole run driven by a fetch oracle over the enumerated pool. -/
def scrapeFromPool (cfg : ConfigParams) (oracle : Int → FetchOutcome)
    (runner_id_init : Int) : LoopState × Option PyErr :=
  scrapeRun cfg ((enumIds cfg.runner_ids_pool runner_id_init).map (fun i => (i, oracle i)))

/-- Checkpoint values in trace order. -/
def checkpointsOf (events : List Event) : List Int :=
  events.filterMap (fun e => match e with | .writeCheckpoint c => some c | _ => none)

/-- Concatenation of all durably appended batches: the rows of the output
artifact, in order. -/
def appendsOf (events : List Event) : List Entry :=
  (events.filterMap (fun e => match e with | .append b => some b | _ => none)).flatten

/-- All records ever placed into the in-memory batch, in order. -/
def recordsOf (events : List Event) : List Entry :=
  events.filterMap (fun e => match e with | .record r => some r | _ => none)

/-! ## Tables (pandas DataFrames) for startup and cleaning

A cell holds a string, an integer or `NaN`; a row carries its index label
(the `RangeIndex` position it had when first read). -/

inductive Val where
  | s (v : String)
  | i (v : Int)
  | null
deriving DecidableEq, Repr

structure Table where
  cols : List String
  rows : List (Nat × List Val)
deriving DecidableEq, Repr

/-- `df[c]` for one row's value list (`Val.null` when the column is
absent; every use below checks presence first where pandas would raise). -/
def getCell (cols : List String) (vals : List Val) (c : String) : Val :=
  match cols.indexOf? c with
  | some j => vals.getD j .null
  | none => .null

/-! ## Session startup / resume (lines 116-145) -/

/-- What startup decided, with `wroteFresh` true exactly when line 140's
`df.to_csv(OUTPUT_FILE, mode='w', ...)` executed, truncating any existing
artifact. -/
structure InitResult where
  column_names : List String
  runner_id_init : Int
  wroteFresh : Bool
deriving DecidableEq, Repr

inductive InitLog where
  | resuming (rid : Int)
  | incomplete
  | startingNew (rid : Int)
deriving DecidableEq, Repr

/-- Full fixed schema of a fresh run (lines 132-137). -/
def schemaColumns (cp : ConfigParams) : List String :=
  [cp.runner_id] ++ cp.personal
    ++ ((List.range cp.distance.length).map (fun i => i + 1)).flatMap
        (fun i => cp.column_mapping.map (fun p => splitFieldName i p.2))
    ++ cp.start_map.map Prod.snd

/-- `scrape_race_data` startup (lines 116-145).
`output`: `none` when `OUTPUT_FILE` does not exist, `some none` when
`pd.read_csv` raises, `some (some df)` when the artifact parses.
`sessionFile`: `none` when `SESSION_FILE` does not exist, `some none`
when its contents do not parse as an `int`, `some (some k)` otherwise. -/
def initSession (cp : ConfigParams) (output : Option (Option Table))
    (sessionFile : Option (Option Int)) : Except PyErr (InitResult × List InitLog) :=
  let afterResume : Except PyErr (List String × Option Int × List InitLog) :=
    match output with
    | none => .ok ([], none, [])
    | some none => .error (.exception "cannot proceed")
    | some (some df) =>
      if df.rows ≠ [] ∧ sessionFile ≠ none then
        match sessionFile with
        | some (some k) => .ok (df.cols, some (k + 1), [.resuming (k + 1)])
        | _ => .error (.exception "cannot proceed")
      else .ok ([], none, [.incomplete])
  match afterResume with
  | .error e => .error e
  | .ok (column_names, rid?, logs) =>
    if column_names = [] then
      match cp.runner_ids_pool with
      | [] => .error .indexError
      | (l, _) :: _ =>
        .ok (⟨schemaColumns cp, l, true⟩, logs ++ [.startingNew l])
    else
      match rid? with
      | some r => .ok (⟨column_names, r, false⟩, logs)
      | none => .error (.nameError "runner_id_init")

/-! ## The normalization stage `clean_race_data` (lines 221-296) -/

inductive CleanLog where
  | excluded (ids : List Val)
deriving DecidableEq, Repr

/-- Lines 236-242: conjunction of equality filters; a missing filter
column raises `KeyError`. -/
def applyFilters (cp : ConfigParams) (t : Table) : Except PyErr Table :=
  cp.filter_by.foldlM
    (fun acc kv =>
      if acc.cols.contains kv.1 then
        .ok { acc with rows := acc.rows.filter (fun r => getCell acc.cols r.2 kv.1 == Val.s kv.2) }
      else .error (.keyError kv.1))
    t

/-- `df[cs]` column projection; `KeyError` on a missing column. -/
def selectCols (t : Table) (cs : List String) : Except PyErr Table :=
  if cs.all (fun c => t.cols.contains c) then
    .ok { cols := cs, rows := t.rows.map (fun r => (r.1, cs.map (fun c => getCell t.cols r.2 c))) }
  else .error (.keyError "Wrong dataset format.")

/-- `dst[cs] = src[cs]` with pandas index alignment: rows of `dst` whose
index label is absent from `src` receive `NaN`; new columns are appended
in order, existing ones overwritten in place. -/
def setColsAligned (dst : Table) (cs : List String) (src : Table) : Table :=
  let newCols := dst.cols ++ cs.filter (fun c => ¬ dst.cols.contains c)
  { cols := newCols,
    rows := dst.rows.map (fun r =>
      let srcRow? := src.rows.find? (fun sr => sr.1 == r.1)
      (r.1, newCols.map (fun c =>
        if cs.contains c then
          match srcRow? with
          | some sr => getCell src.cols sr.2 c
          | none => Val.null
        else getCell dst.cols r.2 c))) }

/-- `convert_split_info` applied to one cell of any runtime type:
a non-string, non-`NaN` cell reaches `datetime.strptime` (branch 1's bare
`except` swallows the `AttributeError` of `int_value.split`) which raises
an uncaught `TypeError`. -/
def convertValCell : Val → Except PyErr Val
  | .null => .ok .null
  | .s str =>
    .ok (match convert_split_info (some str) with
         | some n => .i n
         | none => .null)
  | .i _ => .error .typeError

/-- Result of `clean_race_data`: after `set_index(RUNNER_ID)` the rows are
keyed by the identifier value. -/
structure CleanTable where
  cols : List String
  rows : List (Val × List Val)
deriving DecidableEq, Repr

/-- `clean_race_data` (lines 221-296), translated statement by statement.
Note line 255 filters `raw_df` only: `clean_df`, built at line 246, keeps
every row; rows dropped from `raw_df` merely receive `NaN` in the columns
assigned afterwards by index alignment. -/
def clean_race_data (cp : ConfigParams) (raw_df0 : Table) :
    Except PyErr (CleanTable × List CleanLog) := do
  let raw_df ← applyFilters cp raw_df0
  let clean_df ← selectCols raw_df ([cp.runner_id] ++ cp.cleaning_personal)
  let noInfo := clean_df.rows.map (fun r =>
    (r.1, cp.cleaning_personal.any (fun c => getCell clean_df.cols r.2 c == Val.null)))
  let badIdx := (noInfo.filter (fun p => p.2)).map (fun p => p.1)
  let logs : List CleanLog :=
    if badIdx ≠ [] then
      [.excluded (raw_df.rows.filterMap (fun r =>
        if badIdx.contains r.1 then some (getCell raw_df.cols r.2 cp.runner_id) else none))]
    else []
  let raw_df2 : Table := { raw_df with rows := raw_df.rows.filter (fun r => ¬ badIdx.contains r.1) }
  let split_columns :=
    ((List.range cp.distance.length).map (fun i => i + 1)).flatMap
      (fun i => cp.split_info.map (fun c => splitFieldName i c))
  let chip ← match lookupStr cp.start_map "ChipStart" with
    | some v => Except.ok v
    | none => Except.error (PyErr.keyError "ChipStart")
  let split_columns := split_columns ++ [chip]
  let clean2 ←
    if split_columns.all (fun c => raw_df2.cols.contains c) then
      Except.ok (setColsAligned clean_df split_columns raw_df2)
    else Except.error (PyErr.keyError "Wrong dataset format.")
  let clean3 ←
    if raw_df2.cols.contains "residence" then do
      let mappedRows ← raw_df2.rows.mapM (fun r =>
        match getCell raw_df2.cols r.2 "residence" with
        | .s str => Except.ok (r.1, [Val.s (residenceOf str)])
        | _ => Except.error PyErr.typeError)
      Except.ok (setColsAligned clean2 ["residence"] { cols := ["residence"], rows := mappedRows })
    else Except.error (PyErr.keyError "residence")
  let convertedRows ← clean3.rows.mapM (fun r => do
    let vals ← (clean3.cols.zip r.2).mapM (fun cv =>
      if split_columns.contains cv.1 then convertValCell cv.2 else Except.ok cv.2)
    Except.ok (r.1, vals))
  let clean4 : Table := { clean3 with rows := convertedRows }
  let cleanOut : CleanTable :=
    { cols := clean4.cols.filter (fun c => c ≠ cp.runner_id),
      rows := clean4.rows.map (fun r =>
        (getCell clean4.cols r.2 cp.runner_id,
         (clean4.cols.zip r.2).filterMap (fun cv =>
           if cv.1 = cp.runner_id then none else some cv.2))) }
  return (cleanOut, logs)

/-! # Theorems for the specification claims -/

/-- C6: the split-value coercion tries, in order, the integer place parsed
from the text before the first `/`, then an `%H:%M:%S` duration in
seconds, then an `%M:%S` duration in seconds, and otherwise yields
missing: `"1:02:03" ↦ 3723`, `"4:15" ↦ 255`, `"120/4500" ↦ 120`, and a
missing or unparsable input maps to missing, never to zero. -/
theorem convert_split_info_three_way (s : String) :
    convert_split_info none = none ∧
    convert_split_info (some "1:02:03") = some 3723 ∧
    convert_split_info (some "4:15") = some 255 ∧
    convert_split_info (some "120/4500") = some 120 ∧
    (∀ n, pyInt ((pySplitChar s '/').headD "") = some n →
       convert_split_info (some s) = some n) ∧
    (pyInt ((pySplitChar s '/').headD "") = none →
       (∀ t, strptimeHMS s = some t → convert_split_info (some s) = some (t : Int)) ∧
       (strptimeHMS s = none →
          (∀ t, strptimeMS s = some t → convert_split_info (some s) = some (t : Int)) ∧
          (strptimeMS s = none → convert_split_info (some s) = none))) := by
  refine ⟨rfl, by decide, by decide, by decide, ?_, ?_⟩
  · intro n h
    simp only [convert_split_info, h]
  · intro h1
    refine ⟨fun t h2 => by simp only [convert_split_info, h1, h2], fun h2 => ⟨?_, ?_⟩⟩
    · intro t h3
      simp only [convert_split_info, h1, h2, h3]
    · intro h3
      simp only [convert_split_info, h1, h2, h3]

/-- C6 witness: the branch hypotheses are satisfiable and discharge on
concrete inputs. -/
theorem convert_split_info_three_way_witness :
    convert_split_info (some "7/9") = some 7 ∧ convert_split_info (some "zz") = none := by
  constructor
  · exact (convert_split_info_three_way "7/9").2.2.2.2.1 7 (by decide)
  · exact (((convert_split_info_three_way "zz").2.2.2.2.2 (by decide)).2 (by decide)).2 (by decide)

/-- C10: the place branch accepts any string whose text before the first
`/` parses as a Python integer, including strings with no `/` at all and
strings with several `/`. -/
theorem convert_split_info_place_branch :
    (∀ s n, pyInt ((pySplitChar s '/').headD "") = some n →
       convert_split_info (some s) = some n) ∧
    convert_split_info (some "120") = some 120 ∧
    convert_split_info (some "3/4/5") = some 3 := by
  refine ⟨fun s n h => by simp only [convert_split_info, h], by decide, by decide⟩

/-- C10 witness: the place branch fires on a bare integer with no `/`. -/
theorem convert_split_info_place_branch_witness :
    pyInt ((pySplitChar "86" '/').headD "") = some 86 ∧ convert_split_info (some "86") = some 86 :=
  ⟨by decide, convert_split_info_place_branch.1 "86" 86 (by decide)⟩

/-! ### Identifier pool enumeration lemmas -/

theorem mem_intRange {x a b : Int} : x ∈ intRange a b ↔ a ≤ x ∧ x < b := by
  simp only [intRange, List.mem_map, List.mem_range]
  constructor
  · rintro ⟨i, hi, rfl⟩
    omega
  · rintro ⟨h1, h2⟩
    exact ⟨(x - a).toNat, by omega, by omega⟩

theorem intRange_sorted (a b : Int) : (intRange a b).Sorted (· < ·) := by
  unfold intRange
  refine List.Pairwise.map _ (fun i j h => ?_) (List.pairwise_lt_range _)
  omega

theorem length_intRange (a b : Int) : (intRange a b).length = (b - a).toNat := by
  rw [intRange, List.length_map, List.length_range]

theorem enumIds_cons (a : Int × Int) (rest : List (Int × Int)) (B : Int) :
    enumIds (a :: rest) B =
      (if B ≤ a.2 then intRange (max B a.1) (a.2 + 1) else []) ++ enumIds rest B := by
  simp only [enumIds, runner_id_ranges, List.filterMap_cons]
  split <;> simp_all

/-- Membership in the enumeration, for arbitrary pools: exactly the
identifiers `≥ B` inside some pool range. -/
theorem enumIds_mem (pool : List (Int × Int)) (B x : Int) :
    x ∈ enumIds pool B ↔ B ≤ x ∧ ∃ lr ∈ pool, lr.1 ≤ x ∧ x ≤ lr.2 := by
  induction pool with
  | nil => simp [enumIds, runner_id_ranges]
  | cons a rest ih =>
    rw [enumIds_cons, List.mem_append, ih]
    by_cases h : B ≤ a.2
    · simp only [if_pos h, mem_intRange, List.mem_cons]
      constructor
      · rintro (⟨hx1, hx2⟩ | ⟨hB, lr, hlr, hx⟩)
        · exact ⟨by omega, a, Or.inl rfl, by omega, by omega⟩
        · exact ⟨hB, lr, Or.inr hlr, hx⟩
      · rintro ⟨hB, lr, (rfl | hlr), hx1, hx2⟩
        · exact Or.inl (by omega)
        · exact Or.inr ⟨hB, lr, hlr, hx1, hx2⟩
    · simp only [if_neg h, List.not_mem_nil, false_or, List.mem_cons]
      constructor
      · rintro ⟨hB, lr, hlr, hx⟩
        exact ⟨hB, lr, Or.inr hlr, hx⟩
      · rintro ⟨hB, lr, (rfl | hlr), hx1, hx2⟩
        · omega
        · exact ⟨hB, lr, hlr, hx1, hx2⟩

/-- For well-formed, pairwise-disjoint, ascending pools, the enumeration
is strictly ascending. -/
theorem enumIds_sorted (pool : List (Int × Int)) (B : Int)
    (h1 : ∀ lr ∈ pool, lr.1 ≤ lr.2)
    (h2 : pool.Pairwise (fun p q => p.2 < q.1)) :
    (enumIds pool B).Sorted (· < ·) := by
  induction pool with
  | nil => simp [enumIds, runner_id_ranges]
  | cons a rest ih =>
    rw [enumIds_cons]
    rw [List.pairwise_cons] at h2
    have hrest1 : ∀ lr ∈ rest, lr.1 ≤ lr.2 := fun lr hlr => h1 lr (List.mem_cons_of_mem a hlr)
    have ihr := ih hrest1 h2.2
    refine List.pairwise_append.2 ⟨?_, ihr, ?_⟩
    · split
      · exact intRange_sorted _ _
      · exact List.Pairwise.nil
    · intro x hx y hy
      rcases (enumIds_mem rest B y).1 hy with ⟨_, lr, hlr, hy1, _⟩
      have hlt := h2.1 lr hlr
      have hx2 : x ≤ a.2 := by
        by_cases hBa : B ≤ a.2
        · rw [if_pos hBa] at hx
          have := mem_intRange.1 hx
          omega
        · rw [if_neg hBa] at hx
          exact absurd hx (List.not_mem_nil x)
      omega

/-- The precomputed total equals the number of enumerated identifiers. -/
theorem scrapeTotal_eq_length (pool : List (Int × Int)) (B : Int)
    (h1 : ∀ lr ∈ pool, lr.1 ≤ lr.2) :
    scrapeTotal pool B = ((enumIds pool B).length : Int) := by
  induction pool with
  | nil => simp [enumIds, runner_id_ranges, scrapeTotal]
  | cons a rest ih =>
    have ha := h1 a (List.mem_cons_self a rest)
    have ihr := ih (fun lr hlr => h1 lr (List.mem_cons_of_mem a hlr))
    rw [enumIds_cons]
    simp only [scrapeTotal, List.length_append]
    split
    · rw [length_intRange]
      push_cast
      omega
    · simp only [List.length_nil]
      omega

/-- C3 counterexample: for the overlapping pool `[[1,2],[1,2]]` with
resume bound 1, every range is well-formed, yet the enumeration is
`[1,2,1,2]`: identifiers are emitted twice and the visit order is not
ascending, refuting the claim for pools with overlapping ranges. -/
theorem enumIds_overlap_counterexample :
    (∀ lr ∈ [((1 : Int), (2 : Int)), (1, 2)], lr.1 ≤ lr.2) ∧
    enumIds [(1, 2), (1, 2)] 1 = [1, 2, 1, 2] ∧
    ¬ (enumIds [(1, 2), (1, 2)] 1).Nodup ∧
    ¬ (enumIds [(1, 2), (1, 2)] 1).Sorted (· ≤ ·) := by
  refine ⟨by decide, by decide, by decide, ?_⟩
  intro h
  have e : enumIds [((1 : Int), (2 : Int)), (1, 2)] 1 = [1, 2, 1, 2] := by decide
  rw [e] at h
  have h2 := (List.sorted_cons.1 h).2
  have h3 := (List.sorted_cons.1 h2).1 1 (by decide)
  omega

/-- C3 (amended): for every pool whose ranges are well-formed
(`low ≤ high`), pairwise disjoint and listed in ascending order, and every
resume bound `B`, the enumeration visits, in strictly ascending order,
exactly the identifiers `≥ B` lying in some range (ranges ending before
`B` skipped, a range starting below `B` clipped to `B`), emits no
identifier twice, and the total computed before emission equals the
number of identifiers emitted. -/
theorem enumIds_spec (pool : List (Int × Int)) (B : Int)
    (h1 : ∀ lr ∈ pool, lr.1 ≤ lr.2)
    (h2 : pool.Pairwise (fun p q => p.2 < q.1)) :
    (enumIds pool B).Sorted (· < ·) ∧
    (enumIds pool B).Nodup ∧
    (∀ x, x ∈ enumIds pool B ↔ B ≤ x ∧ ∃ lr ∈ pool, lr.1 ≤ x ∧ x ≤ lr.2) ∧
    scrapeTotal pool B = ((enumIds pool B).length : Int) :=
  ⟨enumIds_sorted pool B h1 h2, (enumIds_sorted pool B h1 h2).nodup,
   fun x => enumIds_mem pool B x, scrapeTotal_eq_length pool B h1⟩

/-- C3 witness: the amended statement applied to the disjoint ascending
pool `[[1,3],[10,12]]` with resume bound 2. -/
theorem enumIds_spec_witness :
    (enumIds [((1 : Int), (3 : Int)), (10, 12)] 2).Nodup ∧
    (2 : Int) ∈ enumIds [((1 : Int), (3 : Int)), (10, 12)] 2 ∧
    scrapeTotal [((1 : Int), (3 : Int)), (10, 12)] 2 =
      ((enumIds [((1 : Int), (3 : Int)), (10, 12)] 2).length : Int) := by
  have h := enumIds_spec [((1 : Int), (3 : Int)), (10, 12)] 2 (by decide) (by decide)
  exact ⟨h.2.1, (h.2.2.1 2).2 (by decide), h.2.2.2⟩

/-! ### Ingestion-loop trace lemmas -/

theorem recordsOf_append (e1 e2 : List Event) :
    recordsOf (e1 ++ e2) = recordsOf e1 ++ recordsOf e2 := by
  simp [recordsOf, List.filterMap_append]

theorem appendsOf_append (e1 e2 : List Event) :
    appendsOf (e1 ++ e2) = appendsOf e1 ++ appendsOf e2 := by
  simp [appendsOf, List.filterMap_append]

theorem checkpointsOf_append (e1 e2 : List Event) :
    checkpointsOf (e1 ++ e2) = checkpointsOf e1 ++ checkpointsOf e2 := by
  simp [checkpointsOf, List.filterMap_append]

/-- Trace well-formedness, part 1 of C1: every checkpoint write is
immediately preceded by a durable batch append. -/
def CkptPreceded (evs : List Event) : Prop :=
  ∀ i c, evs[i]? = some (Event.writeCheckpoint c) →
    1 ≤ i ∧ ∃ b, evs[i - 1]? = some (Event.append b)

/-- Trace well-formedness, part 2 of C1: at the moment of every checkpoint
write, the records created so far (`record` events, line 184) coincide
with the rows durably appended so far (`append` events, lines 191/212):
the checkpoint is never advanced past data not yet persisted. -/
def FlushedPrefix (evs : List Event) : Prop :=
  ∀ i c, evs[i]? = some (Event.writeCheckpoint c) →
    recordsOf (evs.take i) = appendsOf (evs.take i)

/-- The accounting invariant: records created = rows persisted + in-memory
batch. -/
def BatchInv (st : LoopState) : Prop :=
  recordsOf st.events = appendsOf st.events ++ st.batch

theorem ckptPreceded_nil : CkptPreceded [] := by
  intro i c h
  simp at h

theorem flushedPrefix_nil : FlushedPrefix [] := by
  intro i c h
  simp at h

/-- Appending a non-checkpoint event preserves `CkptPreceded`. -/
theorem ckptPreceded_extend_nonckpt (evs : List Event) (e : Event)
    (he : ∀ c, e ≠ Event.writeCheckpoint c) (h : CkptPreceded evs) :
    CkptPreceded (evs ++ [e]) := by
  intro i c hi
  by_cases hlt : i < evs.length
  · rw [List.getElem?_append_left hlt] at hi
    obtain ⟨h1, b, hb⟩ := h i c hi
    exact ⟨h1, b, by rw [List.getElem?_append_left (by omega)]; exact hb⟩
  · rw [List.getElem?_append_right (by omega)] at hi
    have : i - evs.length = 0 := by
      by_contra hne
      rw [List.getElem?_eq_none (by simp; omega)] at hi
      exact Option.noConfusion hi
    rw [this] at hi
    simp at hi
    exact absurd hi (he c)

/-- Appending a flush block preserves `CkptPreceded`. -/
theorem ckptPreceded_extend_flush (evs : List Event) (b : List Entry) (r : Int)
    (h : CkptPreceded evs) :
    CkptPreceded (evs ++ [Event.append b, Event.writeCheckpoint r]) := by
  intro i c hi
  by_cases hlt : i < evs.length
  · rw [List.getElem?_append_left hlt] at hi
    obtain ⟨h1, b2, hb⟩ := h i c hi
    exact ⟨h1, b2, by rw [List.getElem?_append_left (by omega)]; exact hb⟩
  · rw [List.getElem?_append_right (by omega)] at hi
    rcases Nat.lt_or_ge (i - evs.length) 2 with h2 | h2
    · interval_cases hk : (i - evs.length)
      · simp at hi
      · simp at hi
        refine ⟨by omega, b, ?_⟩
        rw [List.getElem?_append_right (by omega)]
        have : i - 1 - evs.length = 0 := by omega
        rw [this]
        rfl
    · rw [List.getElem?_eq_none (by simp; omega)] at hi
      exact Option.noConfusion hi

/-- Appending a non-checkpoint event preserves `FlushedPrefix`. -/
theorem flushedPrefix_extend_nonckpt (evs : List Event) (e : Event)
    (he : ∀ c, e ≠ Event.writeCheckpoint c) (h : FlushedPrefix evs) :
    FlushedPrefix (evs ++ [e]) := by
  intro i c hi
  by_cases hlt : i < evs.length
  · rw [List.getElem?_append_left hlt] at hi
    rw [List.take_append_of_le_length (by omega)]
    exact h i c hi
  · rw [List.getElem?_append_right (by omega)] at hi
    have h0 : i - evs.length = 0 := by
      by_contra hne
      rw [List.getElem?_eq_none (by simp; omega)] at hi
      exact Option.noConfusion hi
    rw [h0] at hi
    simp at hi
    exact absurd hi (he c)

/-- Appending a flush block whose payload is the pending batch preserves
`FlushedPrefix`. -/
theorem flushedPrefix_extend_flush (evs : List Event) (b : List Entry) (r : Int)
    (h : FlushedPrefix evs) (hb : recordsOf evs = appendsOf evs ++ b) :
    FlushedPrefix (evs ++ [Event.append b, Event.writeCheckpoint r]) := by
  intro i c hi
  by_cases hlt : i < evs.length
  · rw [List.getElem?_append_left hlt] at hi
    rw [List.take_append_of_le_length (by omega)]
    exact h i c hi
  · rw [List.getElem?_append_right (by omega)] at hi
    rcases Nat.lt_or_ge (i - evs.length) 2 with h2 | h2
    · interval_cases hk : (i - evs.length)
      · simp at hi
      · have hieq : i = evs.length + 1 := by omega
        subst hieq
        rw [List.take_append_eq_append_take]
        have h1 : evs.length + 1 - evs.length = 1 := by omega
        rw [List.take_of_length_le (by omega), h1]
        rw [recordsOf_append, appendsOf_append, hb]
        simp [recordsOf, appendsOf]
    · rw [List.getElem?_eq_none (by simp; omega)] at hi
      exact Option.noConfusion hi

/-- `doFlush` in closed form. -/
theorem doFlush_spec (st : LoopState) (rid : Int) (p : Bool) :
    (doFlush st rid p).events = st.events ++ [Event.append st.batch, Event.writeCheckpoint rid] ∧
    (doFlush st rid p).batch = [] ∧ (doFlush st rid p).last = st.last := by
  cases p <;> simp [doFlush]

/-- The three invariants are preserved by one flush decision. -/
theorem maybeFlush_inv (cfg : ConfigParams) (st : LoopState) (rid : Int)
    (h1 : BatchInv st) (h2 : FlushedPrefix st.events) (h3 : CkptPreceded st.events) :
    BatchInv (maybeFlush cfg st rid) ∧ FlushedPrefix (maybeFlush cfg st rid).events ∧
      CkptPreceded (maybeFlush cfg st rid).events := by
  unfold maybeFlush
  split
  · obtain ⟨he, hbt, _⟩ := doFlush_spec st rid (rid % (cfg.batch_size * 2) = 0)
    refine ⟨?_, ?_, ?_⟩
    · unfold BatchInv at h1 ⊢
      rw [he, hbt, recordsOf_append, appendsOf_append, h1]
      simp [recordsOf, appendsOf]
    · rw [he]
      exact flushedPrefix_extend_flush st.events st.batch rid h2 h1
    · rw [he]
      exact ckptPreceded_extend_flush st.events st.batch rid h3
  · exact ⟨h1, h2, h3⟩

/-- The three invariants are preserved by one loop iteration. -/
theorem loopStep_inv (cfg : ConfigParams) (st : LoopState) (rid : Int) (oc : FetchOutcome)
    (h1 : BatchInv st) (h2 : FlushedPrefix st.events) (h3 : CkptPreceded st.events) :
    BatchInv (loopStep cfg st rid oc).1 ∧ FlushedPrefix (loopStep cfg st rid oc).1.events ∧
      CkptPreceded (loopStep cfg st rid oc).1.events := by
  cases oc with
  | transportError => exact ⟨h1, h2, h3⟩
  | noContent code => exact maybeFlush_inv cfg _ rid h1 h2 h3
  | content doc =>
    simp only [loopStep]
    rcases hsp : extract_splits doc rid cfg with ⟨r, slog⟩
    cases r with
    | error e => exact ⟨h1, h2, h3⟩
    | ok sfields =>
      apply maybeFlush_inv
      · unfold BatchInv at h1 ⊢
        simp only [recordsOf_append, appendsOf_append, h1]
        simp [recordsOf, appendsOf]
      · exact flushedPrefix_extend_nonckpt st.events _ (fun c => by simp) h2
      · exact ckptPreceded_extend_nonckpt st.events _ (fun c => by simp) h3

/-- The three invariants hold of the state reached by the main loop,
whether it completes or aborts on an uncaught extraction exception. -/
theorem runLoop_inv (cfg : ConfigParams) :
    ∀ (inputs : List (Int × FetchOutcome)) (st : LoopState),
    BatchInv st → FlushedPrefix st.events → CkptPreceded st.events →
    BatchInv (runLoop cfg inputs st).1 ∧ FlushedPrefix (runLoop cfg inputs st).1.events ∧
      CkptPreceded (runLoop cfg inputs st).1.events
  | [], st, h1, h2, h3 => ⟨h1, h2, h3⟩
  | (rid, oc) :: rest, st, h1, h2, h3 => by
    obtain ⟨g1, g2, g3⟩ := loopStep_inv cfg st rid oc h1 h2 h3
    simp only [runLoop]
    rcases hstep : loopStep cfg st rid oc with ⟨st2, e⟩
    rw [hstep] at g1 g2 g3
    cases e with
    | none => exact runLoop_inv cfg rest st2 g1 g2 g3
    | some e2 => exact ⟨g1, g2, g3⟩

/-- The invariants are preserved by the residual flush of lines 208-215. -/
theorem residualFlush_inv (st : LoopState)
    (h1 : BatchInv st) (h2 : FlushedPrefix st.events) (h3 : CkptPreceded st.events) :
    BatchInv (residualFlush st).1 ∧ FlushedPrefix (residualFlush st).1.events ∧
      CkptPreceded (residualFlush st).1.events := by
  unfold residualFlush
  by_cases hb : st.batch = []
  · rw [if_pos hb]
    exact ⟨h1, h2, h3⟩
  · rw [if_neg hb]
    rcases hl : st.last with _ | rid
    · exact ⟨h1, h2, h3⟩
    · refine ⟨?_, ?_, ?_⟩
      · unfold BatchInv at h1 ⊢
        simp only [List.append_assoc, List.cons_append, List.nil_append,
          recordsOf_append, appendsOf_append, h1]
        simp [recordsOf, appendsOf]
      · simp only [List.append_assoc, List.cons_append, List.nil_append]
        exact flushedPrefix_extend_flush st.events st.batch rid h2 h1
      · simp only [List.append_assoc, List.cons_append, List.nil_append]
        exact ckptPreceded_extend_flush st.events st.batch rid h3

/-- The invariants hold at the end of `scrape_race_data`, residual flush
included. -/
theorem scrapeRun_inv (cfg : ConfigParams) (inputs : List (Int × FetchOutcome)) :
    BatchInv (scrapeRun cfg inputs).1 ∧ FlushedPrefix (scrapeRun cfg inputs).1.events ∧
      CkptPreceded (scrapeRun cfg inputs).1.events := by
  have h0 : BatchInv initLoopState := by
    simp [BatchInv, initLoopState, recordsOf, appendsOf]
  obtain ⟨h1, h2, h3⟩ := runLoop_inv cfg inputs initLoopState h0 flushedPrefix_nil ckptPreceded_nil
  simp only [scrapeRun]
  rcases hrl : runLoop cfg inputs initLoopState with ⟨st, e⟩
  rw [hrl] at h1 h2 h3
  cases e with
  | some e2 => simpa using ⟨h1, h2, h3⟩
  | none =>
    obtain ⟨g1, g2, g3⟩ := residualFlush_inv st h1 h2 h3
    rcases hres : residualFlush st with ⟨st2, e2⟩
    rw [hres] at g1 g2 g3
    simp only [Option.isSome_none, Bool.false_eq_true, if_false, hres]
    cases e2 with
    | some e3 => simpa using ⟨g1, g2, g3⟩
    | none => simpa using ⟨g1, g2, g3⟩

theorem chain'_le_append (l : List Int) (a : Int)
    (h : List.Chain' (· ≤ ·) l) (ha : ∀ x ∈ l, x ≤ a) :
    List.Chain' (· ≤ ·) (l ++ [a]) := by
  rw [List.chain'_append]
  refine ⟨h, List.chain'_singleton a, ?_⟩
  intro x hx y hy
  simp only [List.head?_cons, Option.mem_def, Option.some.injEq] at hy
  subst hy
  rcases List.mem_getLast?_eq_getLast hx with ⟨hne, rfl⟩
  exact ha _ (List.getLast_mem hne)

/-- How one flush decision changes the checkpoint trace. -/
theorem maybeFlush_ckpts (cfg : ConfigParams) (st : LoopState) (rid : Int) :
    (checkpointsOf (maybeFlush cfg st rid).events = checkpointsOf st.events ∨
     checkpointsOf (maybeFlush cfg st rid).events = checkpointsOf st.events ++ [rid]) ∧
    (maybeFlush cfg st rid).last = st.last := by
  unfold maybeFlush
  split
  · obtain ⟨he, _, hl⟩ := doFlush_spec st rid (rid % (cfg.batch_size * 2) = 0)
    refine ⟨Or.inr ?_, hl⟩
    rw [he, checkpointsOf_append]
    simp [checkpointsOf]
  · exact ⟨Or.inl rfl, rfl⟩

/-- How one loop iteration changes the checkpoint trace and the loop
variable. -/
theorem loopStep_ckpts (cfg : ConfigParams) (st : LoopState) (rid : Int) (oc : FetchOutcome) :
    (checkpointsOf (loopStep cfg st rid oc).1.events = checkpointsOf st.events ∨
     checkpointsOf (loopStep cfg st rid oc).1.events = checkpointsOf st.events ++ [rid]) ∧
    (loopStep cfg st rid oc).1.last = some rid := by
  cases oc with
  | transportError => exact ⟨Or.inl rfl, rfl⟩
  | noContent code =>
    constructor
    · exact (maybeFlush_ckpts cfg _ rid).1
    · exact (maybeFlush_ckpts cfg _ rid).2
  | content doc =>
    simp only [loopStep]
    rcases hsp : extract_splits doc rid cfg with ⟨r, slog⟩
    cases r with
    | error e => exact ⟨Or.inl rfl, rfl⟩
    | ok sfields =>
      constructor
      · rcases (maybeFlush_ckpts cfg _ rid).1 with he | he
        · left
          rw [he, checkpointsOf_append]
          simp [checkpointsOf]
        · right
          rw [he, checkpointsOf_append]
          simp [checkpointsOf]
      · exact (maybeFlush_ckpts cfg _ rid).2

/-- Checkpoint monotonicity of the main loop over an ascending identifier
sequence. -/
theorem runLoop_mono (cfg : ConfigParams) :
    ∀ (inputs : List (Int × FetchOutcome)) (st : LoopState),
    ((inputs.map Prod.fst).Sorted (· < ·)) →
    List.Chain' (· ≤ ·) (checkpointsOf st.events) →
    (∀ c ∈ checkpointsOf st.events, ∀ p ∈ inputs, c ≤ p.1) →
    (∀ c ∈ checkpointsOf st.events, ∀ l, st.last = some l → c ≤ l) →
    List.Chain' (· ≤ ·) (checkpointsOf (runLoop cfg inputs st).1.events) ∧
    (∀ c ∈ checkpointsOf (runLoop cfg inputs st).1.events, ∀ l,
        (runLoop cfg inputs st).1.last = some l → c ≤ l)
  | [], st, _, hc, _, hlast => ⟨hc, fun c hc2 l hl => hlast c hc2 l hl⟩
  | (rid, oc) :: rest, st, hsort, hc, hfut, hlast => by
    simp only [runLoop]
    obtain ⟨hck, hl⟩ := loopStep_ckpts cfg st rid oc
    rcases hstep : loopStep cfg st rid oc with ⟨st2, e⟩
    rw [hstep] at hck hl
    have hridfut : ∀ c ∈ checkpointsOf st.events, c ≤ rid := fun c hcm =>
      hfut c hcm (rid, oc) (List.mem_cons_self _ _)
    rw [List.map_cons, List.sorted_cons] at hsort
    have hrest_lt : ∀ p ∈ rest, rid < p.1 := fun p hp =>
      hsort.1 p.1 (List.mem_map_of_mem Prod.fst hp)
    have hchain2 : List.Chain' (· ≤ ·) (checkpointsOf st2.events) := by
      rcases hck with he | he
      · rw [he]
        exact hc
      · rw [he]
        exact chain'_le_append _ _ hc hridfut
    have hfut2 : ∀ c ∈ checkpointsOf st2.events, ∀ p ∈ rest, c ≤ p.1 := by
      intro c hcm p hp
      rcases hck with he | he
      · rw [he] at hcm
        exact hfut c hcm p (List.mem_cons_of_mem _ hp)
      · rw [he] at hcm
        rcases List.mem_append.1 hcm with h | h
        · exact hfut c h p (List.mem_cons_of_mem _ hp)
        · simp at h
          subst h
          exact le_of_lt (hrest_lt p hp)
    have hlast2 : ∀ c ∈ checkpointsOf st2.events, ∀ l, st2.last = some l → c ≤ l := by
      intro c hcm l hle
      rw [hl] at hle
      injection hle with hle
      subst hle
      rcases hck with he | he
      · rw [he] at hcm
        exact hridfut c hcm
      · rw [he] at hcm
        rcases List.mem_append.1 hcm with h | h
        · exact hridfut c h
        · simp at h
          omega
    cases e with
    | none => exact runLoop_mono cfg rest st2 hsort.2 hchain2 hfut2 hlast2
    | some e2 => exact ⟨hchain2, hlast2⟩

/-- The residual flush preserves checkpoint monotonicity. -/
theorem residualFlush_mono (st : LoopState)
    (hc : List.Chain' (· ≤ ·) (checkpointsOf st.events))
    (hlast : ∀ c ∈ checkpointsOf st.events, ∀ l, st.last = some l → c ≤ l) :
    List.Chain' (· ≤ ·) (checkpointsOf (residualFlush st).1.events) := by
  unfold residualFlush
  by_cases hb : st.batch = []
  · rw [if_pos hb]
    exact hc
  · rw [if_neg hb]
    rcases hl : st.last with _ | rid
    · exact hc
    · simp only [List.append_assoc, List.cons_append, List.nil_append, checkpointsOf_append]
      have : checkpointsOf [Event.append st.batch, Event.writeCheckpoint rid] = [rid] := by
        simp [checkpointsOf]
      rw [this]
      exact chain'_le_append _ _ hc (fun c hcm => hlast c hcm rid hl)

/-- Checkpoint monotonicity of a full run over an ascending identifier
sequence. -/
theorem scrapeRun_mono (cfg : ConfigParams) (inputs : List (Int × FetchOutcome))
    (hsort : (inputs.map Prod.fst).Sorted (· < ·)) :
    List.Chain' (· ≤ ·) (checkpointsOf (scrapeRun cfg inputs).1.events) := by
  obtain ⟨hc, hlast⟩ := runLoop_mono cfg inputs initLoopState hsort
    (by simp [checkpointsOf, initLoopState])
    (by simp [checkpointsOf, initLoopState])
    (by simp [checkpointsOf, initLoopState])
  simp only [scrapeRun]
  rcases hrl : runLoop cfg inputs initLoopState with ⟨st, e⟩
  rw [hrl] at hc hlast
  cases e with
  | some e2 => simpa using hc
  | none =>
    have hres := residualFlush_mono st hc hlast
    rcases hr : residualFlush st with ⟨st2, e2⟩
    rw [hr] at hres
    simp only [Option.isSome_none, Bool.false_eq_true, if_false, hr]
    cases e2 with
    | some e3 => simpa using hres
    | none => simpa using hres

/-- C1 counterexample: with the configured pool `[[2,4],[1,3]]` (ranges
overlapping and out of order), batch size 1, a fresh session starting at
the first range's lower bound 2, and the server answering status 404 for
every identifier, the run writes the checkpoint sequence `[2, 4, 2]`: the
checkpoint read back after flush 3 is smaller than after flush 2,
refuting the claimed monotonicity over arbitrary runs. -/
theorem checkpoint_not_monotone_counterexample :
    checkpointsOf (scrapeFromPool { batch_size := 1, runner_ids_pool := [(2, 4), (1, 3)] }
        (fun _ => FetchOutcome.noContent 404) 2).1.events = [2, 4, 2] ∧
    ¬ List.Chain' (· ≤ ·)
        (checkpointsOf (scrapeFromPool { batch_size := 1, runner_ids_pool := [(2, 4), (1, 3)] }
          (fun _ => FetchOutcome.noContent 404) 2).1.events) := by
  have e : checkpointsOf (scrapeFromPool { batch_size := 1, runner_ids_pool := [(2, 4), (1, 3)] }
      (fun _ => FetchOutcome.noContent 404) 2).1.events = [2, 4, 2] := by decide
  refine ⟨e, ?_⟩
  rw [e]
  intro h
  rw [List.chain'_cons] at h
  have := (List.chain'_cons.1 h.2).1
  omega

/-- C1 (amended): over every run whatsoever, every flush durably appends
the batch to the output artifact strictly before the checkpoint file is
written (`CkptPreceded`), and at every checkpoint write all records
created so far are already persisted (`FlushedPrefix`): the checkpoint is
never advanced past data that was not persisted. When additionally the
run's enumerated identifier sequence is strictly ascending (as a fresh or
resumed session over a well-formed, pairwise-disjoint, ascending pool
produces), the checkpoint values read back across the run are
monotonically non-decreasing. -/
theorem checkpoint_flush_spec (cfg : ConfigParams) (inputs : List (Int × FetchOutcome)) :
    CkptPreceded (scrapeRun cfg inputs).1.events ∧
    FlushedPrefix (scrapeRun cfg inputs).1.events ∧
    ((inputs.map Prod.fst).Sorted (· < ·) →
      List.Chain' (· ≤ ·) (checkpointsOf (scrapeRun cfg inputs).1.events)) :=
  ⟨(scrapeRun_inv cfg inputs).2.2, (scrapeRun_inv cfg inputs).2.1,
   fun hsort => scrapeRun_mono cfg inputs hsort⟩

/-- C1 witness: the amended statement applied to a concrete ascending
two-identifier run, the monotonicity premise discharged. -/
theorem checkpoint_flush_spec_witness :
    CkptPreceded (scrapeRun { batch_size := 1 }
        [((2 : Int), FetchOutcome.noContent 404), (4, FetchOutcome.noContent 404)]).1.events ∧
    FlushedPrefix (scrapeRun { batch_size := 1 }
        [((2 : Int), FetchOutcome.noContent 404), (4, FetchOutcome.noContent 404)]).1.events ∧
    List.Chain' (· ≤ ·) (checkpointsOf (scrapeRun { batch_size := 1 }
        [((2 : Int), FetchOutcome.noContent 404), (4, FetchOutcome.noContent 404)]).1.events) :=
  ⟨(checkpoint_flush_spec { batch_size := 1 }
      [((2 : Int), FetchOutcome.noContent 404), (4, FetchOutcome.noContent 404)]).1,
   (checkpoint_flush_spec { batch_size := 1 }
      [((2 : Int), FetchOutcome.noContent 404), (4, FetchOutcome.noContent 404)]).2.1,
   (checkpoint_flush_spec { batch_size := 1 }
      [((2 : Int), FetchOutcome.noContent 404), (4, FetchOutcome.noContent 404)]).2.2 (by decide)⟩

/-- Every successful fetch in `inputs` carries a document on which the
splits extraction returns instead of raising (irregular shapes that raise
are the subject of C7). -/
def ExtractionSafe (cfg : ConfigParams) (inputs : List (Int × FetchOutcome)) : Prop :=
  ∀ p ∈ inputs, ∀ doc, p.2 = FetchOutcome.content doc →
    ∃ flds lg, extract_splits doc p.1 cfg = (Except.ok flds, lg)

/-- The main loop never aborts when the fetched documents extract
cleanly: the only uncaught exceptions come from extraction. -/
theorem runLoop_no_abort (cfg : ConfigParams) :
    ∀ (inputs : List (Int × FetchOutcome)) (st : LoopState),
    ExtractionSafe cfg inputs → (runLoop cfg inputs st).2 = none
  | [], _, _ => rfl
  | (rid, oc) :: rest, st, hsafe => by
    simp only [runLoop]
    have hrest : ExtractionSafe cfg rest := fun p hp => hsafe p (List.mem_cons_of_mem _ hp)
    cases oc with
    | transportError => exact runLoop_no_abort cfg rest _ hrest
    | noContent code => exact runLoop_no_abort cfg rest _ hrest
    | content doc =>
      obtain ⟨flds, lg, hex⟩ :=
        hsafe (rid, FetchOutcome.content doc) (List.mem_cons_self _ _) doc rfl
      simp only [loopStep, hex]
      exact runLoop_no_abort cfg rest _ hrest

/-- C8: an identifier whose retrieval ends in a transport failure
(timeout, connection or DNS error, retry exhaustion - the
`RequestException` caught at line 202) only contributes a log line: the
batch, artifact and checkpoint state are untouched, no record is appended
for it, and the loop continues with the remaining identifiers; a run
whose successful documents extract cleanly is never terminated by such
failures. -/
theorem transport_failure_never_fatal (cfg : ConfigParams) (st : LoopState) (rid : Int)
    (rest inputs : List (Int × FetchOutcome)) (hsafe : ExtractionSafe cfg inputs) :
    runLoop cfg ((rid, FetchOutcome.transportError) :: rest) st =
      runLoop cfg rest { st with last := some rid, log := st.log ++ [LogMsg.skipError rid] } ∧
    (runLoop cfg inputs st).2 = none :=
  ⟨rfl, runLoop_no_abort cfg inputs st hsafe⟩

/-- C8 witness: a concrete one-identifier run failing in transport. -/
theorem transport_failure_never_fatal_witness :
    runLoop { batch_size := 1 } [((5 : Int), FetchOutcome.transportError)] initLoopState =
      runLoop { batch_size := 1 } []
        { initLoopState with last := some 5,
                             log := initLoopState.log ++ [LogMsg.skipError 5] } ∧
    (runLoop { batch_size := 1 } [((5 : Int), FetchOutcome.transportError)]
        initLoopState).2 = none :=
  transport_failure_never_fatal { batch_size := 1 } initLoopState 5 [] _
    (by
      intro p hp doc hdoc
      rw [List.mem_singleton] at hp
      subst hp
      exact absurd hdoc (fun h => FetchOutcome.noConfusion h))

/-- C4: the summary line 217 interpolates the name `processed`, which is
bound nowhere in `scrape_race_data`, so the function never returns
normally - every run ends in an exception - and a run that completes the
loop and the residual flush raises exactly `NameError` for `processed`
instead of printing the summary. -/
theorem summary_always_raises :
    (∀ (cfg : ConfigParams) (inputs : List (Int × FetchOutcome)),
       ((scrapeRun cfg inputs).2).isSome = true) ∧
    (scrapeRun { batch_size := 1 } [((1 : Int), FetchOutcome.noContent 404)]).2 =
      some (PyErr.nameError "processed") := by
  constructor
  · intro cfg inputs
    simp only [scrapeRun]
    rcases runLoop cfg inputs initLoopState with ⟨st, e⟩
    cases e with
    | some e2 => simp
    | none =>
      rcases residualFlush st with ⟨st2, e2⟩
      cases e2 with
      | some e3 => simp
      | none => simp
  · decide

/-! ### Canonical splits markup

The shape the results server serves: a `detailedresultsseg` div holding a
table whose first row carries a `Location` header plus metric headers, and
whose body rows carry a label cell followed by value cells. -/

def mkTh (t : String) : Html := .node "th" [] t []

def mkTd (t : String) : Html := .node "td" [] t []

def mkHeaderRow (headers : List String) : Html :=
  .node "tr" [] "" (mkTh "Location" :: headers.map mkTh)

def mkBodyRow (lbl : String) (vals : List String) : Html :=
  .node "tr" [] "" (mkTh lbl :: vals.map mkTd)

def mkSplitsDoc (headers : List String) (rows : List (String × List String)) : Html :=
  .node "div" ["detailedresultsseg"] "" [
    .node "table" [] "" (mkHeaderRow headers :: rows.map (fun r => mkBodyRow r.1 r.2))]

theorem allNodesList_append (l1 l2 : List Html) :
    Html.allNodesList (l1 ++ l2) = Html.allNodesList l1 ++ Html.allNodesList l2 := by
  induction l1 with
  | nil => simp [Html.allNodesList]
  | cons h t ih => simp [Html.allNodesList, ih]

theorem allNodesList_map_mkTd (vals : List String) :
    Html.allNodesList (vals.map mkTd) = vals.map mkTd := by
  induction vals with
  | nil => simp [Html.allNodesList]
  | cons v t ih => simp [Html.allNodesList, Html.allNodes, mkTd, ih]

theorem allNodesList_map_mkTh (hs : List String) :
    Html.allNodesList (hs.map mkTh) = hs.map mkTh := by
  induction hs with
  | nil => simp [Html.allNodesList]
  | cons v t ih => simp [Html.allNodesList, Html.allNodes, mkTh, ih]

theorem allNodes_mkBodyRow (lbl : String) (vals : List String) :
    (mkBodyRow lbl vals).allNodes = mkBodyRow lbl vals :: mkTh lbl :: vals.map mkTd := by
  simp [mkBodyRow, Html.allNodes, Html.allNodesList, allNodesList_map_mkTd, mkTh]

theorem allNodes_mkHeaderRow (headers : List String) :
    (mkHeaderRow headers).allNodes = mkHeaderRow headers :: mkTh "Location" :: headers.map mkTh := by
  simp [mkHeaderRow, Html.allNodes, Html.allNodesList, allNodesList_map_mkTh, mkTh]

theorem filter_not_tr_map_mkTh (hs : List String) :
    (hs.map mkTh).filter (fun n => n.tag == "tr") = [] := by
  induction hs with
  | nil => rfl
  | cons h t ih => simp [mkTh, Html.tag, ih]

theorem filter_not_tr_map_mkTd (vs : List String) :
    (vs.map mkTd).filter (fun n => n.tag == "tr") = [] := by
  induction vs with
  | nil => rfl
  | cons h t ih => simp [mkTd, Html.tag, ih]

/-- `find_all('tr')` on the canonical markup yields the header row
followed by the body rows, in order. -/
theorem findAllTag_tr_mkSplitsDoc (headers : List String) (rows : List (String × List String)) :
    (mkSplitsDoc headers rows).findAllTag "tr" =
      mkHeaderRow headers :: rows.map (fun r => mkBodyRow r.1 r.2) := by
  have hrows : (Html.allNodesList (rows.map (fun r => mkBodyRow r.1 r.2))).filter
      (fun n => n.tag == "tr") = rows.map (fun r => mkBodyRow r.1 r.2) := by
    induction rows with
    | nil => rfl
    | cons r t ih =>
      rw [List.map_cons, Html.allNodesList, allNodes_mkBodyRow, List.cons_append,
        List.cons_append, List.filter_cons_of_pos (by rfl), List.filter_cons_of_neg (by simp [mkTh, Html.tag]),
        List.filter_append, filter_not_tr_map_mkTd, List.nil_append, ih]
  have e1 : Html.allNodes (mkSplitsDoc headers rows) =
      mkSplitsDoc headers rows ::
        Html.node "table" [] "" (mkHeaderRow headers :: rows.map (fun r => mkBodyRow r.1 r.2)) ::
          (Html.allNodesList (mkHeaderRow headers :: rows.map (fun r => mkBodyRow r.1 r.2)) ++ []) := rfl
  unfold Html.findAllTag
  rw [e1, List.filter_cons_of_neg (by simp [mkSplitsDoc, Html.tag]),
    List.filter_cons_of_neg (by simp [Html.tag]), List.append_nil, Html.allNodesList,
    List.filter_append, allNodes_mkHeaderRow, List.filter_cons_of_pos (by rfl),
    List.filter_cons_of_neg (by simp [mkTh, Html.tag]), filter_not_tr_map_mkTh, hrows]
  rfl

/-- `find('div', class_='detailedresultsseg')` finds the canonical region
itself. -/
theorem findTagClass_mkSplitsDoc (headers : List String) (rows : List (String × List String)) :
    (mkSplitsDoc headers rows).findTagClass "div" "detailedresultsseg" =
      some (mkSplitsDoc headers rows) := by
  unfold Html.findTagClass Html.findAllTagClass
  have e1 : Html.allNodes (mkSplitsDoc headers rows) =
      mkSplitsDoc headers rows ::
        Html.node "table" [] "" (mkHeaderRow headers :: rows.map (fun r => mkBodyRow r.1 r.2)) ::
          (Html.allNodesList (mkHeaderRow headers :: rows.map (fun r => mkBodyRow r.1 r.2)) ++ []) := rfl
  rw [e1, List.filter_cons_of_pos (by rfl)]
  rfl

/-- The header texts of the canonical header row. -/
theorem headerTexts_mkHeaderRow (headers : List String) :
    ((mkHeaderRow headers).findAllTag "th").map Html.txt = "Location" :: headers := by
  have hall : (headers.map mkTh).filter (fun n => n.tag == "th") = headers.map mkTh := by
    induction headers with
    | nil => rfl
    | cons h t ih => rw [List.map_cons, List.filter_cons_of_pos (by rfl), ih]
  have htxt : ∀ hs : List String, (hs.map mkTh).map Html.txt = hs := by
    intro hs
    induction hs with
    | nil => rfl
    | cons h t ih => rw [List.map_cons, List.map_cons, ih]; rfl
  unfold Html.findAllTag
  rw [allNodes_mkHeaderRow, List.filter_cons_of_neg (by simp [mkHeaderRow, Html.tag]),
    List.filter_cons_of_pos (by rfl), hall, List.map_cons, htxt]
  rfl

theorem findTag_th_mkBodyRow (lbl : String) (vals : List String) :
    (mkBodyRow lbl vals).findTag "th" = some (mkTh lbl) := by
  have hvals : ((vals.map mkTd).filter (fun n => n.tag == "th")) = [] := by
    induction vals with
    | nil => rfl
    | cons h t ih => rw [List.map_cons, List.filter_cons_of_neg (by simp [mkTd, Html.tag]), ih]
  unfold Html.findTag Html.findAllTag
  rw [allNodes_mkBodyRow, List.filter_cons_of_neg (by simp [mkBodyRow, Html.tag]),
    List.filter_cons_of_pos (by rfl)]
  rfl

theorem findAllTag_td_mkBodyRow (lbl : String) (vals : List String) :
    (mkBodyRow lbl vals).findAllTag "td" = vals.map mkTd := by
  have hvals : ((vals.map mkTd).filter (fun n => n.tag == "td")) = vals.map mkTd := by
    induction vals with
    | nil => rfl
    | cons h t ih => rw [List.map_cons, List.filter_cons_of_pos (by rfl), ih]
  unfold Html.findAllTag
  rw [allNodes_mkBodyRow, List.filter_cons_of_neg (by simp [mkBodyRow, Html.tag]),
    List.filter_cons_of_neg (by simp [mkTh, Html.tag]), hvals]

/-- `extract_splits` on the canonical markup reduces to the row fold with
the `Location` header dropped. -/
theorem extract_splits_mkSplitsDoc (cfg : ConfigParams) (rid : Int)
    (headers : List String) (rows : List (String × List String)) :
    extract_splits (mkSplitsDoc headers rows) rid cfg =
      (rows.map (fun r => mkBodyRow r.1 r.2)).foldl
        (splitsRowStep cfg rid headers) (Except.ok [], []) := by
  have step1 : extract_splits (mkSplitsDoc headers rows) rid cfg =
      (match (mkSplitsDoc headers rows).findAllTag "tr" with
       | [] => ((Except.error PyErr.stopIteration : Except PyErr (List (String × String))),
                ([] : List LogMsg))
       | headerRow :: rows2 =>
         match (headerRow.findAllTag "th").map Html.txt with
         | [] => (Except.error PyErr.indexError, [])
         | _ :: headers2 => rows2.foldl (splitsRowStep cfg rid headers2) (Except.ok [], [])) := rfl
  rw [step1, findAllTag_tr_mkSplitsDoc]
  have step2 : (match mkHeaderRow headers :: rows.map (fun r => mkBodyRow r.1 r.2) with
       | [] => ((Except.error PyErr.stopIteration : Except PyErr (List (String × String))),
                ([] : List LogMsg))
       | headerRow :: rows2 =>
         match (headerRow.findAllTag "th").map Html.txt with
         | [] => (Except.error PyErr.indexError, [])
         | _ :: headers2 => rows2.foldl (splitsRowStep cfg rid headers2) (Except.ok [], [])) =
      (match ((mkHeaderRow headers).findAllTag "th").map Html.txt with
       | [] => ((Except.error PyErr.indexError : Except PyErr (List (String × String))),
                ([] : List LogMsg))
       | _ :: headers2 => (rows.map (fun r => mkBodyRow r.1 r.2)).foldl
           (splitsRowStep cfg rid headers2) (Except.ok [], [])) := rfl
  rw [step2, headerTexts_mkHeaderRow]

/-! ### Python dict lookup lemmas -/

theorem find?_mapReplace (k v : String) :
    ∀ d : List (String × String), d.any (fun p => p.1 = k) = true →
    (d.map (fun p => if p.1 = k then (k, v) else p)).find?
      (fun p => p.1 = k) = some (k, v) := by
  intro d
  induction d with
  | nil =>
    intro h
    simp at h
  | cons p t ih =>
    intro h
    by_cases hp : p.1 = k
    · rw [List.map_cons, if_pos hp, List.find?_cons_of_pos]
      simp
    · rw [List.map_cons, if_neg hp, List.find?_cons_of_neg]
      · apply ih
        rw [List.any_cons] at h
        simpa [hp] using h
      · simp [hp]

theorem find?_mapReplace_ne (k v k2 : String) (hne : k ≠ k2) :
    ∀ d : List (String × String),
    (d.map (fun p => if p.1 = k then (k, v) else p)).find? (fun p => p.1 = k2) =
      d.find? (fun p => p.1 = k2) := by
  intro d
  induction d with
  | nil => rfl
  | cons p t ih =>
    by_cases hp : p.1 = k
    · rw [List.map_cons, if_pos hp, List.find?_cons_of_neg, List.find?_cons_of_neg, ih]
      · simp [hp]
        exact fun h => hne (h ▸ rfl)
      · simp
        exact fun h => hne (h ▸ rfl)
    · rw [List.map_cons, if_neg hp, List.find?_cons, List.find?_cons, ih]

theorem lookupStr_pyDictInsert_self (d : List (String × String)) (k v : String) :
    lookupStr (pyDictInsert d k v) k = some v := by
  unfold pyDictInsert lookupStr
  split
  · rename_i hany
    rw [find?_mapReplace k v d (by simpa using hany)]
    rfl
  · rename_i hany
    have hnone : d.find? (fun p => p.1 = k) = none := by
      rw [List.find?_eq_none]
      intro x hx
      simp only [Bool.not_eq_true] at hany
      intro hxk
      have h2 : (d.any fun p => p.1 = k) = true := List.any_eq_true.2 ⟨x, hx, hxk⟩
      rw [h2] at hany
      exact Bool.noConfusion hany
    rw [List.find?_append, hnone, Option.none_or, List.find?_cons_of_pos]
    · rfl
    · simp

theorem lookupStr_pyDictInsert_ne (d : List (String × String)) (k v k2 : String)
    (hne : k ≠ k2) :
    lookupStr (pyDictInsert d k v) k2 = lookupStr d k2 := by
  unfold pyDictInsert lookupStr
  split
  · rw [find?_mapReplace_ne k v k2 hne]
  · rw [List.find?_append, List.find?_cons_of_neg, List.find?_nil, Option.or_none]
    simp
    exact fun h => hne (h ▸ rfl)

theorem mem_pyDictInsert (d : List (String × String)) (k v : String)
    (kv : String × String) (h : kv ∈ pyDictInsert d k v) : kv ∈ d ∨ kv.1 = k := by
  unfold pyDictInsert at h
  split at h
  · rcases List.mem_map.1 h with ⟨p, hp, hpe⟩
    by_cases hpk : p.1 = k
    · rw [if_pos hpk] at hpe
      right
      rw [← hpe]
    · rw [if_neg hpk] at hpe
      left
      rw [← hpe]
      exact hp
  · rcases List.mem_append.1 h with h2 | h2
    · exact Or.inl h2
    · right
      rw [List.mem_singleton.1 h2]

/-! ### The inner column loop of a distance-mark row, in closed form -/

/-- The dict after the column loop of lines 41-45. -/
def splitsCellsRes (cfg : ConfigParams) (k : Nat) :
    List (String × String) → List (String × String) → List (String × String)
  | [], res => res
  | cv :: rest, res =>
    splitsCellsRes cfg k rest
      (match lookupStr cfg.column_mapping cv.1 with
       | some mapped => pyDictInsert res (splitFieldName k mapped) cv.2
       | none => res)

/-- The warnings printed by the column loop of lines 41-45. -/
def splitsCellsLog (cfg : ConfigParams) (rid : Int) :
    List (String × String) → List LogMsg
  | [] => []
  | cv :: rest =>
    (match lookupStr cfg.column_mapping cv.1 with
     | some _ => []
     | none => [LogMsg.warnUnknownField cv.1 rid]) ++ splitsCellsLog cfg rid rest

theorem splitsCells_fold_eq (cfg : ConfigParams) (rid : Int) (k : Nat) :
    ∀ (cells : List (String × String)) (res : List (String × String)) (lg : List LogMsg),
    cells.foldl (splitsCellStep cfg rid k) (Except.ok res, lg) =
      (Except.ok (splitsCellsRes cfg k cells res), lg ++ splitsCellsLog cfg rid cells)
  | [], res, lg => by simp [splitsCellsRes, splitsCellsLog]
  | cv :: rest, res, lg => by
    rw [List.foldl_cons]
    rcases hl : lookupStr cfg.column_mapping cv.1 with _ | mapped
    · have hstep : splitsCellStep cfg rid k (Except.ok res, lg) cv =
          (Except.ok res, lg ++ [LogMsg.warnUnknownField cv.1 rid]) := by
        unfold splitsCellStep
        rw [hl]
      rw [hstep, splitsCells_fold_eq cfg rid k rest res _]
      simp [splitsCellsRes, splitsCellsLog, hl]
    · have hstep : splitsCellStep cfg rid k (Except.ok res, lg) cv =
          (Except.ok (pyDictInsert res (splitFieldName k mapped) cv.2), lg) := by
        unfold splitsCellStep
        rw [hl]
      rw [hstep, splitsCells_fold_eq cfg rid k rest _ _]
      simp [splitsCellsRes, splitsCellsLog, hl]

/-- A key never produced by any cell keeps its prior value. -/
theorem splitsCellsRes_frozen (cfg : ConfigParams) (k : Nat) :
    ∀ (cells : List (String × String)) (res : List (String × String)) (key : String),
    (∀ cv ∈ cells, ∀ m, lookupStr cfg.column_mapping cv.1 = some m →
        splitFieldName k m ≠ key) →
    lookupStr (splitsCellsRes cfg k cells res) key = lookupStr res key
  | [], res, key, _ => rfl
  | cv :: rest, res, key, h => by
    unfold splitsCellsRes
    rcases hl : lookupStr cfg.column_mapping cv.1 with _ | mapped
    · exact splitsCellsRes_frozen cfg k rest res key
        (fun cv2 h2 m hm => h cv2 (List.mem_cons_of_mem _ h2) m hm)
    · rw [splitsCellsRes_frozen cfg k rest _ key
        (fun cv2 h2 m hm => h cv2 (List.mem_cons_of_mem _ h2) m hm)]
      exact lookupStr_pyDictInsert_ne res _ cv.2 key
        (h cv (List.mem_cons_self _ _) mapped hl)

/-- `splitFieldName` with a fixed index is injective in the metric name. -/
theorem splitFieldName_inj (k : Nat) (m m2 : String)
    (h : splitFieldName k m = splitFieldName k m2) : m = m2 := by
  unfold splitFieldName at h
  have h2 := congrArg String.data h
  simp only [String.data_append] at h2
  have h3 := List.append_cancel_left h2
  rcases m with ⟨md⟩
  rcases m2 with ⟨m2d⟩
  exact congrArg String.mk h3

/-- When distinct cells never map to the same metric, each recognized
cell's value survives to the final dict. -/
theorem splitsCellsRes_lookup (cfg : ConfigParams) (k : Nat) :
    ∀ (cells : List (String × String)) (res : List (String × String)),
    cells.Pairwise (fun c1 c2 => lookupStr cfg.column_mapping c1.1 = none ∨
        lookupStr cfg.column_mapping c1.1 ≠ lookupStr cfg.column_mapping c2.1) →
    ∀ cv ∈ cells, ∀ m, lookupStr cfg.column_mapping cv.1 = some m →
      lookupStr (splitsCellsRes cfg k cells res) (splitFieldName k m) = some cv.2
  | [], _, _, cv, hcv, _, _ => absurd hcv (List.not_mem_nil cv)
  | c :: rest, res, hpw, cv, hcv, m, hm => by
    rw [List.pairwise_cons] at hpw
    rcases List.mem_cons.1 hcv with rfl | hcv2
    · unfold splitsCellsRes
      rw [hm]
      rw [splitsCellsRes_frozen cfg k rest _ (splitFieldName k m) ?_]
      · exact lookupStr_pyDictInsert_self res _ cv.2
      · intro cv2 h2 m2 hm2 heq
        rcases hpw.1 cv2 h2 with hc | hc
        · rw [hm] at hc
          exact Option.noConfusion hc
        · rw [hm, hm2] at hc
          exact hc (congrArg some (splitFieldName_inj k m2 m heq).symm)
    · unfold splitsCellsRes
      rcases hl : lookupStr cfg.column_mapping c.1 with _ | mapped
      · exact splitsCellsRes_lookup cfg k rest res hpw.2 cv hcv2 m hm
      · exact splitsCellsRes_lookup cfg k rest _ hpw.2 cv hcv2 m hm

/-- Every entry of the produced dict comes from some recognized header. -/
theorem splitsCellsRes_domain (cfg : ConfigParams) (k : Nat) :
    ∀ (cells : List (String × String)) (res : List (String × String))
      (kv : String × String), kv ∈ splitsCellsRes cfg k cells res →
    kv ∈ res ∨ ∃ h, h ∈ cells.map Prod.fst ∧ ∃ m,
      lookupStr cfg.column_mapping h = some m ∧ kv.1 = splitFieldName k m
  | [], _, _, hkv => Or.inl hkv
  | c :: rest, res, kv, hkv => by
    unfold splitsCellsRes at hkv
    rcases hl : lookupStr cfg.column_mapping c.1 with _ | mapped
    · rw [hl] at hkv
      rcases splitsCellsRes_domain cfg k rest res kv hkv with h | ⟨h, hh, m, hm, he⟩
      · exact Or.inl h
      · exact Or.inr ⟨h, List.mem_cons_of_mem _ hh, m, hm, he⟩
    · rw [hl] at hkv
      rcases splitsCellsRes_domain cfg k rest _ kv hkv with h | ⟨h, hh, m, hm, he⟩
      · rcases mem_pyDictInsert res _ c.2 kv h with h2 | h2
        · exact Or.inl h2
        · exact Or.inr ⟨c.1, List.mem_cons_self _ _, mapped, hl, h2⟩
      · exact Or.inr ⟨h, List.mem_cons_of_mem _ hh, m, hm, he⟩

/-- Every unrecognized header of a processed row is warned about. -/
theorem splitsCellsLog_warn (cfg : ConfigParams) (rid : Int) :
    ∀ (cells : List (String × String)) (cv : String × String), cv ∈ cells →
    lookupStr cfg.column_mapping cv.1 = none →
    LogMsg.warnUnknownField cv.1 rid ∈ splitsCellsLog cfg rid cells
  | [], cv, hcv, _ => absurd hcv (List.not_mem_nil cv)
  | c :: rest, cv, hcv, hl => by
    unfold splitsCellsLog
    rcases List.mem_cons.1 hcv with rfl | hcv2
    · rw [hl]
      exact List.mem_append.2 (Or.inl (List.mem_singleton.2 rfl))
    · exact List.mem_append.2 (Or.inr (splitsCellsLog_warn cfg rid rest cv hcv2 hl))

theorem findTag_td_mkBodyRow (lbl : String) (vals : List String) :
    (mkBodyRow lbl vals).findTag "td" = (vals.map mkTd).head? := by
  unfold Html.findTag
  rw [findAllTag_td_mkBodyRow]

theorem map_txt_map_mkTd (vals : List String) : (vals.map mkTd).map Html.txt = vals := by
  induction vals with
  | nil => rfl
  | cons v t ih =>
    rw [List.map_cons, List.map_cons, ih]
    rfl

/-- One body row of the canonical markup, in closed form. -/
theorem splitsRowStep_mkBodyRow (cfg : ConfigParams) (rid : Int) (headers : List String)
    (res : List (String × String)) (lg : List LogMsg) (lbl : String) (vals : List String) :
    splitsRowStep cfg rid headers (Except.ok res, lg) (mkBodyRow lbl vals) =
      if lbl ∈ cfg.distance then
        (Except.ok (splitsCellsRes cfg (cfg.distance.indexOf lbl + 1) (headers.zip vals) res),
         lg ++ splitsCellsLog cfg rid (headers.zip vals))
      else
        match lookupStr cfg.start_map lbl with
        | some fname =>
          match vals with
          | [] => (Except.error PyErr.attributeError, lg)
          | v :: _ => (Except.ok (pyDictInsert res fname v), lg)
        | none => (Except.ok res, lg ++ [LogMsg.warnUnknownLabel lbl rid]) := by
  have step1 : splitsRowStep cfg rid headers (Except.ok res, lg) (mkBodyRow lbl vals) =
      (match (mkBodyRow lbl vals).findTag "th" with
       | none => ((Except.error PyErr.attributeError : Except PyErr (List (String × String))), lg)
       | some th =>
         if th.txt ∈ cfg.distance then
           (headers.zip (((mkBodyRow lbl vals).findAllTag "td").map Html.txt)).foldl
             (splitsCellStep cfg rid (cfg.distance.indexOf th.txt + 1)) (Except.ok res, lg)
         else
           match lookupStr cfg.start_map th.txt with
           | some fname =>
             match (mkBodyRow lbl vals).findTag "td" with
             | none => (Except.error PyErr.attributeError, lg)
             | some td => (Except.ok (pyDictInsert res fname td.txt), lg)
           | none => (Except.ok res, lg ++ [LogMsg.warnUnknownLabel th.txt rid])) := rfl
  rw [step1, findTag_th_mkBodyRow]
  have htxt : (mkTh lbl).txt = lbl := rfl
  simp only [htxt, findAllTag_td_mkBodyRow, map_txt_map_mkTd, findTag_td_mkBodyRow]
  by_cases hd : lbl ∈ cfg.distance
  · rw [if_pos hd, if_pos hd, splitsCells_fold_eq]
  · rw [if_neg hd, if_neg hd]
    rcases hs : lookupStr cfg.start_map lbl with _ | fname
    · rfl
    · cases vals with
      | nil => rfl
      | cons v t => rfl

theorem extract_personal_no_region (doc : Html) (rid : Int)
    (h : doc.findTagClass "div" "me-auto mb-3 mb-md-0" = none) :
    extract_personal doc rid = ([], [LogMsg.warnNoPersonal rid]) := by
  unfold extract_personal
  rw [h]

theorem extract_personal_bad_count (doc : Html) (rid : Int) (d : Html)
    (hf : doc.findTagClass "div" "me-auto mb-3 mb-md-0" = some d)
    (hn : ((d.findAllTagClass "strong" "text-primary").map Html.txt).length ≠ 5) :
    extract_personal doc rid = ([], [LogMsg.warnBadPersonalFormat rid]) := by
  have step1 : extract_personal doc rid =
      (match (d.findAllTagClass "strong" "text-primary").map Html.txt with
       | [ev, _, sx, ag, res] =>
         (([("event", ev), ("sex", sx), ("age", ag), ("residence", res)] :
           List (String × String)), ([] : List LogMsg))
       | _ => ([], [LogMsg.warnBadPersonalFormat rid])) := by
    unfold extract_personal
    rw [hf]
  rw [step1]
  rcases hl : (d.findAllTagClass "strong" "text-primary").map Html.txt with _ | ⟨a, l1⟩
  · rfl
  rcases l1 with _ | ⟨b, l2⟩
  · rfl
  rcases l2 with _ | ⟨c, l3⟩
  · rfl
  rcases l3 with _ | ⟨e, l4⟩
  · rfl
  rcases l4 with _ | ⟨f, l5⟩
  · rfl
  rcases l5 with _ | ⟨g, l6⟩
  · rw [hl] at hn
    simp at hn
  · rfl

/-- The row fold of `extract_splits` returns without raising on canonical
rows whose start-label rows are non-empty, and warns on every unknown
label. -/
theorem splitsRows_fold_ok (cfg : ConfigParams) (rid : Int) (headers : List String) :
    ∀ (rows : List (String × List String)) (res : List (String × String)) (lg : List LogMsg),
    (∀ r ∈ rows, r.1 ∈ cfg.distance ∨ lookupStr cfg.start_map r.1 = none ∨ r.2 ≠ []) →
    ∃ res2 lg2, (rows.map (fun r => mkBodyRow r.1 r.2)).foldl
        (splitsRowStep cfg rid headers) (Except.ok res, lg) = (Except.ok res2, lg2) ∧
      (∀ m ∈ lg, m ∈ lg2) ∧
      (∀ r ∈ rows, r.1 ∉ cfg.distance → lookupStr cfg.start_map r.1 = none →
        LogMsg.warnUnknownLabel r.1 rid ∈ lg2)
  | [], res, lg, _ =>
    ⟨res, lg, rfl, fun _ hm => hm, fun r hr => absurd hr (List.not_mem_nil r)⟩
  | (lbl, vals) :: rest, res, lg, hsafe => by
    rw [List.map_cons, List.foldl_cons, splitsRowStep_mkBodyRow]
    have hrest : ∀ r ∈ rest, r.1 ∈ cfg.distance ∨ lookupStr cfg.start_map r.1 = none ∨
        r.2 ≠ [] := fun r hr => hsafe r (List.mem_cons_of_mem _ hr)
    by_cases hd : lbl ∈ cfg.distance
    · rw [if_pos hd]
      obtain ⟨res2, lg2, heq, hsub, hwarn⟩ := splitsRows_fold_ok cfg rid headers rest _ _ hrest
      refine ⟨res2, lg2, heq, ?_, ?_⟩
      · intro m hm
        exact hsub m (List.mem_append.2 (Or.inl hm))
      · intro r hr hnd hns
        rcases List.mem_cons.1 hr with h2 | h2
        · exact absurd (h2 ▸ hd) hnd
        · exact hwarn r h2 hnd hns
    · rw [if_neg hd]
      rcases hs : lookupStr cfg.start_map lbl with _ | fname
      · obtain ⟨res2, lg2, heq, hsub, hwarn⟩ := splitsRows_fold_ok cfg rid headers rest res
          (lg ++ [LogMsg.warnUnknownLabel lbl rid]) hrest
        refine ⟨res2, lg2, heq, ?_, ?_⟩
        · intro m hm
          exact hsub m (List.mem_append.2 (Or.inl hm))
        · intro r hr hnd hns
          rcases List.mem_cons.1 hr with h2 | h2
          · subst h2
            exact hsub _ (List.mem_append.2 (Or.inr (List.mem_singleton.2 rfl)))
          · exact hwarn r h2 hnd hns
      · rcases hv : vals with _ | ⟨v, t⟩
        · exfalso
          rcases hsafe (lbl, vals) (List.mem_cons_self _ _) with h2 | h2 | h2
          · exact hd h2
          · rw [hs] at h2
            exact Option.noConfusion h2
          · exact h2 hv
        · obtain ⟨res2, lg2, heq, hsub, hwarn⟩ := splitsRows_fold_ok cfg rid headers rest
            (pyDictInsert res fname v) lg hrest
          refine ⟨res2, lg2, heq, hsub, ?_⟩
          intro r hr hnd hns
          rcases List.mem_cons.1 hr with h2 | h2
          · subst h2
            rw [hs] at hns
            exact Option.noConfusion hns
          · exact hwarn r h2 hnd hns

/-- C7 counterexample: a splits region whose table has no rows at all
makes `next(rows)` at line 34 raise `StopIteration`, which the loop's
`except requests.exceptions.RequestException` clause does not catch, so
the extraction anomaly terminates the run - refuting the claim that the
extraction functions terminate without raising for every input document. -/
theorem extract_splits_raises_counterexample :
    (extract_splits (Html.node "div" ["detailedresultsseg"] "" []) 1
        ({} : ConfigParams)).1 = Except.error PyErr.stopIteration ∧
    (runLoop ({} : ConfigParams)
        [((1 : Int), FetchOutcome.content (Html.node "div" ["detailedresultsseg"] "" []))]
        initLoopState).2 = some PyErr.stopIteration :=
  ⟨rfl, rfl⟩

/-- C7 (amended): the anomalies the extractors guard against are only
logged and yield a partial or empty record - a missing splits region, a
missing personal region, a wrong emphasized-value count, an unrecognized
row label, and an unrecognized column header inside a well-formed splits
table - but the splits extractor does not terminate without raising on
arbitrary irregular documents (see the counterexample). -/
theorem extraction_anomalies_nonfatal :
    (∀ (cfg : ConfigParams) (doc : Html) (rid : Int),
       doc.findTagClass "div" "detailedresultsseg" = none →
       extract_splits doc rid cfg = (Except.ok [], [LogMsg.warnNoSplits rid])) ∧
    (∀ (doc : Html) (rid : Int),
       doc.findTagClass "div" "me-auto mb-3 mb-md-0" = none →
       extract_personal doc rid = ([], [LogMsg.warnNoPersonal rid])) ∧
    (∀ (doc : Html) (rid : Int) (d : Html),
       doc.findTagClass "div" "me-auto mb-3 mb-md-0" = some d →
       ((d.findAllTagClass "strong" "text-primary").map Html.txt).length ≠ 5 →
       extract_personal doc rid = ([], [LogMsg.warnBadPersonalFormat rid])) ∧
    (∀ (cfg : ConfigParams) (rid : Int) (headers : List String)
       (rows : List (String × List String)),
       (∀ r ∈ rows, r.1 ∈ cfg.distance ∨ lookupStr cfg.start_map r.1 = none ∨ r.2 ≠ []) →
       ∃ res lg, extract_splits (mkSplitsDoc headers rows) rid cfg = (Except.ok res, lg) ∧
         ∀ r ∈ rows, r.1 ∉ cfg.distance → lookupStr cfg.start_map r.1 = none →
           LogMsg.warnUnknownLabel r.1 rid ∈ lg) ∧
    (∀ (cfg : ConfigParams) (rid : Int) (headers : List String) (lbl : String)
       (vals : List String),
       lbl ∈ cfg.distance →
       vals.length = headers.length →
       ∃ res lg, extract_splits (mkSplitsDoc headers [(lbl, vals)]) rid cfg =
           (Except.ok res, lg) ∧
         (∀ h ∈ headers, lookupStr cfg.column_mapping h = none →
            LogMsg.warnUnknownField h rid ∈ lg) ∧
         (∀ kv ∈ res, ∃ h, h ∈ headers ∧ ∃ m, lookupStr cfg.column_mapping h = some m ∧
            kv.1 = splitFieldName (cfg.distance.indexOf lbl + 1) m)) := by
  refine ⟨?_, ?_, ?_, ?_, ?_⟩
  · intro cfg doc rid h
    unfold extract_splits
    rw [h]
  · exact extract_personal_no_region
  · exact extract_personal_bad_count
  · intro cfg rid headers rows hsafe
    rw [extract_splits_mkSplitsDoc]
    obtain ⟨res2, lg2, heq, _, hwarn⟩ := splitsRows_fold_ok cfg rid headers rows [] [] hsafe
    exact ⟨res2, lg2, heq, hwarn⟩
  · intro cfg rid headers lbl vals hd hlen
    rw [extract_splits_mkSplitsDoc]
    have hfst : (headers.zip vals).map Prod.fst = headers :=
      List.map_fst_zip headers vals (by omega)
    rw [List.map_cons, List.map_nil, List.foldl_cons, List.foldl_nil,
      splitsRowStep_mkBodyRow, if_pos hd]
    refine ⟨_, _, rfl, ?_, ?_⟩
    · intro h hh hl
      rcases List.mem_map.1 (hfst ▸ hh) with ⟨cv, hcv, rfl⟩
      simpa using splitsCellsLog_warn cfg rid (headers.zip vals) cv hcv hl
    · intro kv hkv
      rcases splitsCellsRes_domain cfg _ (headers.zip vals) [] kv hkv with h | ⟨h, hh, m, hm, he⟩
      · exact absurd h (List.not_mem_nil kv)
      · exact ⟨h, hfst ▸ hh, m, hm, he⟩

/-- C7 witness: concrete instances of each non-fatal anomaly. -/
theorem extraction_anomalies_nonfatal_witness :
    extract_splits (Html.node "p" [] "hello" []) 3 ({} : ConfigParams) =
      (Except.ok [], [LogMsg.warnNoSplits 3]) ∧
    extract_personal (Html.node "p" [] "hello" []) 3 = ([], [LogMsg.warnNoPersonal 3]) ∧
    extract_personal (Html.node "div" ["me-auto", "mb-3", "mb-md-0"] "" []) 3 =
      ([], [LogMsg.warnBadPersonalFormat 3]) ∧
    (∃ res lg,
      extract_splits (mkSplitsDoc ["Time"] [("Weird", ["x"])]) 3
          { column_mapping := [("Time", "time")], distance := ["10K"] } =
        (Except.ok res, lg) ∧
      ∀ r ∈ [("Weird", ["x"])], r.1 ∉ ["10K"] →
        lookupStr ([] : List (String × String)) r.1 = none →
          LogMsg.warnUnknownLabel r.1 3 ∈ lg) ∧
    (∃ res lg,
      extract_splits (mkSplitsDoc ["Time", "Bogus"] [("10K", ["1:00", "z"])]) 3
          { column_mapping := [("Time", "time")], distance := ["10K"] } =
        (Except.ok res, lg) ∧
      (∀ h ∈ ["Time", "Bogus"], lookupStr [("Time", "time")] h = none →
         LogMsg.warnUnknownField h 3 ∈ lg) ∧
      (∀ kv ∈ res, ∃ h, h ∈ ["Time", "Bogus"] ∧ ∃ m,
         lookupStr [("Time", "time")] h = some m ∧
         kv.1 = splitFieldName (["10K"].indexOf "10K" + 1) m)) := by
  refine ⟨extraction_anomalies_nonfatal.1 {} _ 3 rfl,
    extraction_anomalies_nonfatal.2.1 _ 3 rfl,
    extraction_anomalies_nonfatal.2.2.1 _ 3
      (Html.node "div" ["me-auto", "mb-3", "mb-md-0"] "" []) rfl (by decide),
    ?_, ?_⟩
  · exact extraction_anomalies_nonfatal.2.2.2.1
      { column_mapping := [("Time", "time")], distance := ["10K"] } 3 ["Time"]
      [("Weird", ["x"])] (by decide)
  · exact extraction_anomalies_nonfatal.2.2.2.2
      { column_mapping := [("Time", "time")], distance := ["10K"] } 3 ["Time", "Bogus"]
      "10K" ["1:00", "z"] (by decide) (by decide)

/-- C9 counterexample: "every recognized column of every recognized row
is still extracted" fails without further provisos. Line 50 assigns
`res[f'split_{k}_{m}'] = value` unconditionally, so two recognized
headers mapping to the same metric name collide on one key and the later
cell overwrites the earlier - the recognized column `Time`'s value
`"1:11"` is lost - and likewise a repeated distance-mark label makes the
second row overwrite the first. -/
theorem duplicate_header_overwritten_counterexample :
    (extract_splits (mkSplitsDoc ["Time", "Net"] [("10K", ["1:11", "2:22"])]) 7
        { column_mapping := [("Time", "time"), ("Net", "time")], distance := ["10K"] } =
      (Except.ok [("split_1_time", "2:22")], [])) ∧
    lookupStr [("Time", "time"), ("Net", "time")] "Time" = some "time" ∧
    (extract_splits (mkSplitsDoc ["Time"] [("10K", ["1:11"]), ("10K", ["2:22"])]) 7
        { column_mapping := [("Time", "time")], distance := ["10K"] } =
      (Except.ok [("split_1_time", "2:22")], [])) :=
  ⟨rfl, rfl, rfl⟩

/-- C9 (amended): a document without the personal region yields an empty
mapping with a warning; a personal region whose emphasized values do not
number exactly five yields an empty mapping with a warning; and in a
canonical splits table holding one recognized row whose recognized
headers map to pairwise distinct metric names, an unrecognized column
header is dropped with a warning while every recognized column's value is
still extracted under its split field name. Both provisos are necessary:
recognized headers sharing a metric name, or a repeated row label, make
the later assignment overwrite the earlier value under the same key (see
the counterexample). -/
theorem extractor_robustness :
    (∀ (doc : Html) (rid : Int),
       doc.findTagClass "div" "me-auto mb-3 mb-md-0" = none →
       extract_personal doc rid = ([], [LogMsg.warnNoPersonal rid])) ∧
    (∀ (doc : Html) (rid : Int) (d : Html),
       doc.findTagClass "div" "me-auto mb-3 mb-md-0" = some d →
       ((d.findAllTagClass "strong" "text-primary").map Html.txt).length ≠ 5 →
       extract_personal doc rid = ([], [LogMsg.warnBadPersonalFormat rid])) ∧
    (∀ (cfg : ConfigParams) (rid : Int) (headers : List String) (lbl : String)
       (vals : List String),
       lbl ∈ cfg.distance →
       vals.length = headers.length →
       (headers.zip vals).Pairwise (fun c1 c2 =>
         lookupStr cfg.column_mapping c1.1 = none ∨
         lookupStr cfg.column_mapping c1.1 ≠ lookupStr cfg.column_mapping c2.1) →
       ∃ res lg, extract_splits (mkSplitsDoc headers [(lbl, vals)]) rid cfg =
           (Except.ok res, lg) ∧
         (∀ cv ∈ headers.zip vals, ∀ m, lookupStr cfg.column_mapping cv.1 = some m →
            lookupStr res (splitFieldName (cfg.distance.indexOf lbl + 1) m) = some cv.2) ∧
         (∀ h ∈ headers, lookupStr cfg.column_mapping h = none →
            LogMsg.warnUnknownField h rid ∈ lg) ∧
         (∀ kv ∈ res, ∃ h, h ∈ headers ∧ ∃ m, lookupStr cfg.column_mapping h = some m ∧
            kv.1 = splitFieldName (cfg.distance.indexOf lbl + 1) m)) := by
  refine ⟨extract_personal_no_region, extract_personal_bad_count, ?_⟩
  intro cfg rid headers lbl vals hd hlen hpw
  rw [extract_splits_mkSplitsDoc]
  have hfst : (headers.zip vals).map Prod.fst = headers :=
    List.map_fst_zip headers vals (by omega)
  rw [List.map_cons, List.map_nil, List.foldl_cons, List.foldl_nil,
    splitsRowStep_mkBodyRow, if_pos hd]
  refine ⟨_, _, rfl, ?_, ?_, ?_⟩
  · intro cv hcv m hm
    exact splitsCellsRes_lookup cfg _ (headers.zip vals) [] hpw cv hcv m hm
  · intro h hh hl
    rcases List.mem_map.1 (hfst ▸ hh) with ⟨cv, hcv, rfl⟩
    simpa using splitsCellsLog_warn cfg rid (headers.zip vals) cv hcv hl
  · intro kv hkv
    rcases splitsCellsRes_domain cfg _ (headers.zip vals) [] kv hkv with h | ⟨h, hh, m, hm, he⟩
    · exact absurd h (List.not_mem_nil kv)
    · exact ⟨h, hfst ▸ hh, m, hm, he⟩

/-- C9 witness: one recognized row with one unrecognized header. -/
theorem extractor_robustness_witness :
    ∃ res lg,
      extract_splits (mkSplitsDoc ["Time", "Bogus"] [("10K", ["1:00", "z"])]) 7
          { column_mapping := [("Time", "time")], distance := ["10K"] } =
        (Except.ok res, lg) ∧
      (∀ cv ∈ (["Time", "Bogus"].zip ["1:00", "z"]), ∀ m,
         lookupStr [("Time", "time")] cv.1 = some m →
         lookupStr res (splitFieldName (["10K"].indexOf "10K" + 1) m) = some cv.2) ∧
      (∀ h ∈ ["Time", "Bogus"], lookupStr [("Time", "time")] h = none →
         LogMsg.warnUnknownField h 7 ∈ lg) ∧
      (∀ kv ∈ res, ∃ h, h ∈ ["Time", "Bogus"] ∧ ∃ m,
         lookupStr [("Time", "time")] h = some m ∧
         kv.1 = splitFieldName (["10K"].indexOf "10K" + 1) m) :=
  extractor_robustness.2.2 { column_mapping := [("Time", "time")], distance := ["10K"] } 7
    ["Time", "Bogus"] "10K" ["1:00", "z"] (by decide) (by decide) (by decide)

/-! ## Startup ambiguity (claim C2) and the retained-row cleaning bug (claim C5) -/

/-- C2: whenever the artifact exists (with data) but the session file is
missing, or the artifact exists but is empty, startup logs the
"incomplete" notice (line 127) and then falls through to the fresh-run
branch: line 140 rewrites the artifact with `mode='w'`
(`wroteFresh = true`) and the run proceeds from the first pool
identifier, instead of stopping without modifying the artifact. -/
theorem resume_ambiguity_overwrites (cp : ConfigParams) (df : Table)
    (l r : Int) (rest : List (Int × Int))
    (hpool : cp.runner_ids_pool = (l, r) :: rest) :
    initSession cp (some (some df)) none =
      Except.ok (⟨schemaColumns cp, l, true⟩,
        [InitLog.incomplete, InitLog.startingNew l]) ∧
    initSession cp (some (some { cols := df.cols, rows := [] })) (some (some 5)) =
      Except.ok (⟨schemaColumns cp, l, true⟩,
        [InitLog.incomplete, InitLog.startingNew l]) := by
  constructor
  · simp only [initSession]
    rw [if_neg (by simp), hpool]
    rfl
  · simp only [initSession]
    rw [if_neg (by simp), hpool]
    rfl

/-- C2 witness: a one-range pool, with a one-row artifact and no session
file, and with an empty artifact and a session file holding 5. -/
theorem resume_ambiguity_overwrites_witness :
    initSession { runner_ids_pool := [(1, 400)] }
        (some (some { cols := ["runner_id"], rows := [(0, [Val.i 5])] })) none =
      Except.ok (⟨schemaColumns { runner_ids_pool := [(1, 400)] }, 1, true⟩,
        [InitLog.incomplete, InitLog.startingNew 1]) ∧
    initSession { runner_ids_pool := [(1, 400)] }
        (some (some { cols := ["runner_id"], rows := [] })) (some (some 5)) =
      Except.ok (⟨schemaColumns { runner_ids_pool := [(1, 400)] }, 1, true⟩,
        [InitLog.incomplete, InitLog.startingNew 1]) :=
  resume_ambiguity_overwrites { runner_ids_pool := [(1, 400)] }
    { cols := ["runner_id"], rows := [(0, [Val.i 5])] } 1 400 [] rfl

/-- A minimal scraping configuration for exercising `clean_race_data`. -/
def cleanCfgExample : ConfigParams :=
  { column_mapping := [("Time", "time")],
    start_map := [("ChipStart", "chip_start")],
    distance := ["10K"],
    cleaning_personal := ["event", "sex", "age", "residence"],
    split_info := ["time"] }

/-- A raw artifact whose second row (runner 2) is missing the required
personal field `sex`. -/
def cleanRawExample : Table :=
  { cols := ["runner_id", "event", "sex", "age", "residence", "split_1_time", "chip_start"],
    rows :=
      [(0, [Val.i 1, Val.s "Marathon", Val.s "M", Val.s "30",
            Val.s "Saint Paul, MN", Val.s "4:15", Val.s "1:02:03"]),
       (1, [Val.i 2, Val.s "Marathon", Val.null, Val.s "40",
            Val.s "Rochester, NY", Val.s "5:00", Val.s "1:00:00"])] }

/-- What `clean_race_data cleanCfgExample cleanRawExample` returns: runner
2 is still present, with `NaN` in the columns assigned after the
(ineffective) row drop. -/
def cleanOutExample : CleanTable :=
  { cols := ["event", "sex", "age", "residence", "split_1_time", "chip_start"],
    rows :=
      [(Val.i 1, [Val.s "Marathon", Val.s "M", Val.s "30", Val.s "MN",
                  Val.i 255, Val.i 3723]),
       (Val.i 2, [Val.s "Marathon", Val.null, Val.s "40", Val.null,
                  Val.null, Val.null])] }

/-- C5: line 255 filters `raw_df` only, never `clean_df`, so a row with a
missing required personal field is logged as excluded (line 252) yet
remains in the returned clean table: runner 2 lacks `sex` in the raw
table, is reported in the exclusion log, and is still a row of the output
with `NaN` values in every column assigned after the drop. -/
theorem missing_personal_row_retained :
    clean_race_data cleanCfgExample cleanRawExample =
      Except.ok (cleanOutExample, [CleanLog.excluded [Val.i 2]]) ∧
    (∃ row ∈ cleanRawExample.rows,
       getCell cleanRawExample.cols row.2 cleanCfgExample.runner_id = Val.i 2 ∧
       getCell cleanRawExample.cols row.2 "sex" = Val.null) ∧
    Val.i 2 ∈ cleanOutExample.rows.map Prod.fst := by
  refine ⟨rfl, ?_, ?_⟩ <;> decide

end Mtec
